import Mathlib

/-!
# Verification of the ZFS pool reconciliation engine

Shallow embedding of `zfs_admin/doctype/zfs_pool/zfs_pool.py`: the vdev
mapper (`load_vdevs` / `add_vdev`), the vdev orderer (`fix_vdev_ordering`),
the dataset reconciler (`sync_datasets` / `sync_one_dataset`), the disk
ownership update (`update_disks`) and the pool mutation operations
(`zpool_add`, `zpool_detach`, `zpool_destroy`, `zpool_create`).

Persisted child rows of a pool are value lists; Python in-place mutation of
a row fetched by reference is modelled by updating the list at the row's
index, re-reading through the list whenever the Python code re-reads through
an alias.  The external command layer is modelled by passing the command's
output string; the record store is modelled by explicit lists.
-/

set_option autoImplicit false

namespace ZfsAdmin

/-- A persisted vdev child row (`virtual_devices` table row).  A fresh row
created by `append` carries only `guid`; every other field starts at the
store's default (empty string / 0 / false), matching Frappe's defaults. -/
structure VdevRow where
  guid : String := ""
  type : String := ""
  status : String := ""
  size : Nat := 0
  device_name : String := ""
  parent_device_name : String := ""
  group_type : String := ""
  mapped : Bool := false
  idx : Nat := 0
deriving DecidableEq, Repr, Inhabited

/-- A live child disk under a group container, as exposed by libzfs
(the code reads `guid`, `type`, `status` and `path` of a child). -/
structure LiveChild where
  guid : String
  type : String
  status : String
  path : String
deriving DecidableEq, Repr

/-- A live top-level member of a vdev group: either a leaf disk or a group
container (mirror, raidz, ...) with children. -/
structure LiveVdev where
  guid : String
  type : String
  status : String
  size : Nat
  path : String
  children : List LiveChild
deriving DecidableEq, Repr

/-- The four live device groups of a pool (`zpool.groups`). -/
structure LiveGroups where
  data : List LiveVdev
  cache : List LiveVdev
  log : List LiveVdev
  spare : List LiveVdev
deriving DecidableEq, Repr

/-- A persisted `ZFS Dataset` record. -/
structure DatasetRec where
  name : String
  zfs_pool : String
  props : List (String × String)
deriving DecidableEq, Repr

/-- A `Disk` inventory record (external, referenced not owned). -/
structure DiskRec where
  name : String
  zfs_pool : String
  health : String
deriving DecidableEq, Repr

/-- `os.path.split(disk_path)[-1]`: the final path component, i.e. the
characters after the last `'/'` (the whole name when no `'/'` occurs). -/
def get_disk_name (disk_path : String) : String :=
  String.mk (disk_path.toList.foldl (fun acc c => if c = '/' then [] else acc ++ [c]) [])

/-- In-place mutation of the row at index `i` (Python attribute assignment
through a row reference). -/
def listModify {α : Type} : List α → Nat → (α → α) → List α
  | [], _, _ => []
  | a :: l, 0, f => f a :: l
  | a :: l, n + 1, f => a :: listModify l n f

/-- `get_vdev_row`: index of the first row whose `guid` (string-compared)
matches, if any. -/
def get_vdev_row_idx (rows : List VdevRow) (guid : String) : Option Nat :=
  rows.findIdx? (fun r => r.guid == guid)

/-- `add_vdev`: fetch the row by guid or append a fresh one, then overwrite
`status`, `type`, `guid`, set `size` only for non-child rows, and mark the
row `mapped`.  Returns the new row list and the touched row's index. -/
def add_vdev (rows : List VdevRow) (guid ty status : String) (size : Nat)
    (is_child : Bool) : List VdevRow × Nat :=
  let found := get_vdev_row_idx rows guid
  let rows0 := match found with
    | some _ => rows
    | none => rows ++ [{ guid := guid }]
  let p := match found with
    | some i => i
    | none => rows.length
  (listModify rows0 p (fun r =>
      let r1 := { r with status := status, type := ty, guid := guid }
      let r2 := if is_child then r1 else { r1 with size := size }
      { r2 with mapped := true }), p)

/-- The `added` dict of `load_vdevs`: `added.setdefault(t, 1)` followed by
`added[t] += 1`.  Returns the sequence number used and the updated map. -/
def addedBump (added : List (String × Nat)) (t : String) : Nat × List (String × Nat) :=
  match added.find? (fun kv => kv.1 == t) with
  | some kv => (kv.2, added.map (fun kv2 => if kv2.1 == t then (kv2.1, kv.2 + 1) else kv2))
  | none => (1, added ++ [(t, 2)])

/-- The child loop of `load_vdevs`: for each child disk of a container at
row index `p`, upsert its row, then set `group_type` (parent's current
`type`), `device_name` (path basename) and `parent_device_name` (parent's
current `device_name`, re-read after the child's own writes, which matters
when the child row aliases the parent row). -/
def load_children (rows : List VdevRow) (p : Nat) : List LiveChild → List VdevRow
  | [] => rows
  | c :: cs =>
    let st := add_vdev rows c.guid c.type c.status 0 true
    let rows1 := st.1
    let ci := st.2
    let ptype := ((rows1.get? p).map (fun r => r.type)).getD ""
    let rows2 := listModify rows1 ci (fun r => { r with group_type := ptype })
    let rows3 := listModify rows2 ci (fun r => { r with device_name := get_disk_name c.path })
    let pname := ((rows3.get? p).map (fun r => r.device_name)).getD ""
    let rows4 := listModify rows3 ci (fun r => { r with parent_device_name := pname })
    load_children rows4 p cs

/-- The body of `load_vdevs` for one group: iterate the group's members,
upsert each; a disk member is named by its path basename; a container
member is named by its type, suffixed with a per-type sequence number when
the group holds more than one member of that type, and then its children
are loaded. -/
def load_group_aux (gs : List LiveVdev) (rows : List VdevRow)
    (added : List (String × Nat)) : List LiveVdev → List VdevRow
  | [] => rows
  | v :: rest =>
    let st := add_vdev rows v.guid v.type v.status v.size false
    let rows1 := st.1
    let p := st.2
    if v.type == "disk" then
      load_group_aux gs (listModify rows1 p (fun r => { r with device_name := get_disk_name v.path })) added rest
    else
      let vdev_len := (gs.filter (fun w => w.type == v.type)).length
      let nb := if vdev_len > 1 then
          let b := addedBump added v.type
          (v.type ++ "-" ++ toString b.1, b.2)
        else (v.type, added)
      let rows2 := listModify rows1 p (fun r => { r with device_name := nb.1 })
      load_group_aux gs (load_children rows2 p v.children) nb.2 rest

/-- One group pass of `load_vdevs` (fresh `added` dict per group). -/
def load_group (rows : List VdevRow) (gs : List LiveVdev) : List VdevRow :=
  load_group_aux gs rows [] gs

/-- `load_vdevs`: the four groups in source order data, cache, log, spare. -/
def load_vdevs (rows : List VdevRow) (g : LiveGroups) : List VdevRow :=
  load_group (load_group (load_group (load_group rows g.data) g.cache) g.log) g.spare

/-- Modelled from the spec: the `mapped` flag is transient state of the
mapping pass, not a persisted column of the vdev child doctype (the doctype
schema is not part of the extracted sources); every row therefore begins a
mapping pass with `mapped = false`.  The spec makes this explicit:
implementers must reset all rows' `mapped` flag to false at the start of
each full mapping pass, before processing groups. -/
def reset_mapped (rows : List VdevRow) : List VdevRow :=
  rows.map (fun r => { r with mapped := false })

/-- Row positions of `new_list`, pairing each row with its identity
(Python object identity = position in `new_list`). -/
def idxFrom : Nat → List VdevRow → List (Nat × VdevRow)
  | _, [] => []
  | n, r :: rest => (n, r) :: idxFrom (n + 1) rest

/-- The append order of `fix_vdev_ordering`'s reordering loop: each
top-level row (empty `parent_device_name`), and, for non-disk top-level
rows, every row of `new_list` whose `parent_device_name` equals the
top-level row's `device_name`, scanned in `new_list` order. -/
def buildOrder (all : List (Nat × VdevRow)) : List (Nat × VdevRow) → List (Nat × VdevRow)
  | [] => []
  | q :: rest =>
    if q.2.parent_device_name ≠ "" then buildOrder all rest
    else (q :: (if q.2.type ≠ "disk" then
        all.filter (fun c => c.2.parent_device_name == q.2.device_name) else []))
      ++ buildOrder all rest

/-- 1-based position of the last occurrence of `i` (0 when absent): a row
appended several times keeps the `idx` of its last append. -/
def lastIdxOf (l : List Nat) (i : Nat) : Nat :=
  match l with
  | [] => 0
  | j :: rest =>
    let r := lastIdxOf rest i
    if r ≠ 0 then r + 1 else if j == i then 1 else 0

/-- `fix_vdev_ordering`: drop rows not `mapped`, reorder so each group
header is followed by its children, and assign `idx` as the (last) append
position.  Appending the same row object twice leaves it with the `idx` of
the later append in both output slots. -/
def fix_vdev_ordering (rows : List VdevRow) : List VdevRow :=
  let nl := rows.filter (fun r => r.mapped)
  let ord := buildOrder (idxFrom 0 nl) (idxFrom 0 nl)
  let idxs := ord.map Prod.fst
  ord.map (fun q => { q.2 with idx := lastIdxOf idxs q.1 })

/-- `sync_vdev` preceded by the start-of-pass `mapped` reset. -/
def sync_vdevs (rows : List VdevRow) (g : LiveGroups) : List VdevRow :=
  fix_vdev_ordering (load_vdevs (reset_mapped rows) g)

/-- A live dataset (or snapshot): its name and flat property mapping. -/
structure LiveDataset where
  name : String
  props : List (String × String)
deriving DecidableEq, Repr

/-- `sync_one_dataset`: upsert the record keyed by the live name, copy the
live properties, and point `zfs_pool` at the owning pool. -/
def sync_one_dataset (records : List DatasetRec) (self : String)
    (d : LiveDataset) : List DatasetRec :=
  if records.any (fun r => r.name == d.name) then
    records.map (fun r =>
      if r.name == d.name then { r with props := d.props, zfs_pool := self } else r)
  else
    records ++ [{ name := d.name, zfs_pool := self, props := d.props }]

/-- Fold `sync_one_dataset` over a list of live datasets. -/
def sync_dataset_list (records : List DatasetRec) (self : String) :
    List LiveDataset → List DatasetRec
  | [] => records
  | d :: ds => sync_dataset_list (sync_one_dataset records self d) self ds

/-- The `added` (seen) list of one `sync_datasets` pass: the root name is
appended twice (once inside `sync_one_dataset`, once explicitly), then each
recursive child's and snapshot's name. -/
def seenNames (root : LiveDataset) (children snaps : List LiveDataset) : List String :=
  root.name :: root.name ::
    (children.map (fun d => d.name) ++ snaps.map (fun d => d.name))

/-- `sync_datasets`: upsert root, recursive children and recursive
snapshots, then delete every record of this pool whose name was not seen. -/
def sync_datasets (records : List DatasetRec) (self : String)
    (root : LiveDataset) (children snaps : List LiveDataset) : List DatasetRec :=
  let added := seenNames root children snaps
  let recs := sync_dataset_list
    (sync_dataset_list (sync_one_dataset records self root) self children) self snaps
  recs.filter (fun r => !(r.zfs_pool == self && !added.contains r.name))

/-- Errors `update_disks` can raise: the negative-index access
`disk_name[-2]` on a name shorter than two characters, or a
`frappe.get_doc` miss on the derived disk identity. -/
inductive UpdErr where
  | indexErr : String → UpdErr
  | notFound : String → UpdErr
deriving DecidableEq, Repr

/-- The partition-suffix stripping of `update_disks`: `disk_name[-2]`
(an IndexError when the name is shorter than two characters), compared
against `'p'`; when it matches, the last two characters are dropped. -/
def strip_partition (disk_name : String) : Option String :=
  let cs := disk_name.toList
  if cs.length < 2 then none
  else if cs.getD (cs.length - 2) ' ' = 'p' then
    some (String.mk (cs.take (cs.length - 2)))
  else some disk_name

/-- `update_disks`: for every vdev row of type `"disk"`, derive the disk
identity from `device_name`, fetch that `Disk` record (fatal when absent)
and write the pool reference and the row's health status onto it. -/
def update_disks (self : String) (rows : List VdevRow) (disks : List DiskRec) :
    Except UpdErr (List DiskRec) :=
  match rows with
  | [] => .ok disks
  | r :: rest =>
    if r.type == "disk" then
      match strip_partition r.device_name with
      | none => .error (.indexErr r.device_name)
      | some dn =>
        if disks.any (fun d => d.name == dn) then
          update_disks self rest (disks.map (fun d =>
            if d.name == dn then { d with zfs_pool := self, health := r.status } else d))
        else .error (.notFound dn)
    else update_disks self rest disks

/-- The persisted records the orchestrator operations touch: `ZFS Pool`
records with their vdev child rows, `ZFS Dataset` records, and the external
`Disk` inventory. -/
structure SysState where
  pools : List (String × List VdevRow)
  datasets : List DatasetRec
  disks : List DiskRec
deriving DecidableEq, Repr

/-- The vdev child rows of the pool record named `name` (empty for a fresh,
not yet saved document). -/
def getPoolRows (pools : List (String × List VdevRow)) (name : String) : List VdevRow :=
  ((pools.find? (fun q => q.1 == name)).map (fun q => q.2)).getD []

/-- Persist `rows` as the vdev child rows of pool `name`, creating the pool
record when absent. -/
def setPoolRows (pools : List (String × List VdevRow)) (name : String)
    (rows : List VdevRow) : List (String × List VdevRow) :=
  if pools.any (fun q => q.1 == name) then
    pools.map (fun q => if q.1 == name then (q.1, rows) else q)
  else pools ++ [(name, rows)]

/-- `ZFSPool.sync` on pool `self`: sync vdevs, save (which fires
`on_update` and hence `update_disks`), then reconcile datasets.  A missing
disk inventory record or a short device name aborts the pass. -/
def run_full_sync (st : SysState) (self : String) (g : LiveGroups)
    (root : LiveDataset) (children snaps : List LiveDataset) :
    Except UpdErr SysState :=
  let rows := sync_vdevs (getPoolRows st.pools self) g
  match update_disks self rows st.disks with
  | .error e => .error e
  | .ok disks =>
    .ok { pools := setPoolRows st.pools self rows,
          datasets := sync_datasets st.datasets self root children snaps,
          disks := disks }

/-- `zpool_add` (after the write-permission check): issue the external
command; only on the success sentinel `"okay"` run a full sync and return
`"okay"`; otherwise fall through, returning `None` with no record change.
`out` is the external command layer's returned output. -/
def zpool_add (st : SysState) (self out : String) (g : LiveGroups)
    (root : LiveDataset) (children snaps : List LiveDataset) :
    Except UpdErr (SysState × Option String) :=
  if out == "okay" then
    (run_full_sync st self g root children snaps).map (fun st2 => (st2, some out))
  else .ok (st, none)

/-- `zpool_detach` (after the write-permission check): same success /
fall-through shape as `zpool_add`. -/
def zpool_detach (st : SysState) (self out : String) (g : LiveGroups)
    (root : LiveDataset) (children snaps : List LiveDataset) :
    Except UpdErr (SysState × Option String) :=
  if out == "okay" then
    (run_full_sync st self g root children snaps).map (fun st2 => (st2, some out))
  else .ok (st, none)

/-- `zpool_destroy` (after the delete-permission check): on `"okay"`, clear
`zfs_pool` on every disk pointing at this pool, delete every `ZFS Dataset`
of this pool, and delete the pool record; otherwise fall through with no
record change. -/
def zpool_destroy (st : SysState) (self out : String) : SysState × Option String :=
  if out == "okay" then
    ({ pools := st.pools.filter (fun q => !(q.1 == self)),
       datasets := st.datasets.filter (fun r => !(r.zfs_pool == self)),
       disks := st.disks.map (fun d =>
         if d.zfs_pool == self then { d with zfs_pool := "" } else d) },
     some "okay")
  else (st, none)

/-- Module-level `zpool_create`: only on `"okay"` instantiate a fresh pool
document (no vdev rows) and run a full sync on it; on failure no record is
created. -/
def zpool_create (st : SysState) (name out : String) (g : LiveGroups)
    (root : LiveDataset) (children snaps : List LiveDataset) :
    Except UpdErr (SysState × Option String) :=
  if out == "okay" then
    (run_full_sync { st with pools := setPoolRows st.pools name [] }
        name g root children snaps).map (fun st2 => (st2, some "okay"))
  else .ok (st, none)

/-- All guids observed when mapping one group: each member's guid and its
children's guids. -/
def groupGuids (gs : List LiveVdev) : List String :=
  gs.flatMap (fun v => v.guid :: v.children.map (fun c => c.guid))

/-- All guids observed by a full mapping pass over the four groups. -/
def liveGuids (g : LiveGroups) : List String :=
  groupGuids g.data ++ groupGuids g.cache ++ groupGuids g.log ++ groupGuids g.spare

/-- Lookup in the `added` dict (value of the first pair with the key). -/
def addedGet (added : List (String × Nat)) (t : String) : Option Nat :=
  (added.find? (fun kv => kv.1 == t)).map Prod.snd

/-! ### Canonical form of a mapping pass over fresh rows

Closed forms used to characterise `load_vdevs` on guid-fresh rows: each
group member yields one top row (plus one row per child of a container),
with the container naming rule of `load_vdevs` expressed positionally. -/

/-- Number of members of `gs` whose live type is `t`
(the `vdev_len` count of `load_vdevs`). -/
def typeCount (gs : List LiveVdev) (t : String) : Nat :=
  (gs.filter (fun w => w.type == t)).length

/-- The name `load_vdevs` assigns to a container member `v` of group `gs`
whose already-processed prefix is `pre`: the bare type when the group holds
exactly one member of that type, else `type-k` with `k` the 1-based
occurrence number of the type so far. -/
def containerName (gs pre : List LiveVdev) (v : LiveVdev) : String :=
  if 1 < typeCount gs v.type then
    v.type ++ "-" ++ toString (typeCount pre v.type + 1)
  else v.type

/-- The row a fresh `add_vdev` plus naming produces for a top-level member. -/
def topRowOf (name : String) (v : LiveVdev) : VdevRow :=
  { guid := v.guid, type := v.type, status := v.status, size := v.size,
    device_name := name, parent_device_name := "", group_type := "",
    mapped := true, idx := 0 }

/-- The row a fresh `add_vdev` plus the child writes produce for a child
disk under a container of type `ptype` named `pname`. -/
def childRowOf (ptype pname : String) (c : LiveChild) : VdevRow :=
  { guid := c.guid, type := c.type, status := c.status, size := 0,
    device_name := get_disk_name c.path, parent_device_name := pname,
    group_type := ptype, mapped := true, idx := 0 }

/-- Canonical rows produced by processing the member suffix `vs` of group
`gs` after prefix `pre`, starting from guid-fresh rows. -/
def canonGroupAux (gs : List LiveVdev) (pre : List LiveVdev) :
    List LiveVdev → List VdevRow
  | [] => []
  | v :: rest =>
    (if v.type == "disk" then [topRowOf (get_disk_name v.path) v]
     else topRowOf (containerName gs pre v) v ::
       v.children.map (childRowOf v.type (containerName gs pre v)))
    ++ canonGroupAux gs (pre ++ [v]) rest

/-- Canonical rows of one whole group. -/
def canonGroup (gs : List LiveVdev) : List VdevRow := canonGroupAux gs [] gs

/-- Canonical rows of a full mapping pass over empty rows. -/
def canonLoaded (g : LiveGroups) : List VdevRow :=
  canonGroup g.data ++ canonGroup g.cache ++ canonGroup g.log ++ canonGroup g.spare

/-- Top-level rows of a mapped row list (empty `parent_device_name`). -/
def tops (nl : List VdevRow) : List VdevRow :=
  nl.filter (fun r => r.parent_device_name == "")

/-- Rows of `nl` whose `parent_device_name` equals `dname`, in list order. -/
def childrenOf (nl : List VdevRow) (dname : String) : List VdevRow :=
  nl.filter (fun r => r.parent_device_name == dname)

/-- The ordering contract: every top-level row immediately followed by all
rows naming it as parent, before the next top-level row. -/
def expectedOrder (nl : List VdevRow) : List VdevRow :=
  (tops nl).flatMap (fun t => t :: childrenOf nl t.device_name)

/-- Assign contiguous 1-based `idx` values positionally, starting above `n`. -/
def assignIdxFrom : Nat → List VdevRow → List VdevRow
  | _, [] => []
  | n, r :: rest => { r with idx := n + 1 } :: assignIdxFrom (n + 1) rest

/-- Assign `idx` values `1, 2, ..., n` positionally. -/
def assignIdx (l : List VdevRow) : List VdevRow := assignIdxFrom 0 l

/-- Two top-level rows sharing the device name `"mirror"`, with one child
row naming it as parent: the reorder loop appends the child under both
headers. -/
def c5Rows : List VdevRow :=
  [{ guid := "1", type := "mirror", device_name := "mirror", mapped := true },
   { guid := "2", type := "mirror", device_name := "mirror", mapped := true },
   { guid := "3", type := "disk", device_name := "c",
     parent_device_name := "mirror", mapped := true }]

/-- The state a full `sync` touches for one pool, as a pure pair: the
pool's persisted vdev rows and the full `ZFS Dataset` record list.  `sync`
maps it to (vdevs re-mapped and re-ordered, datasets reconciled). -/
def full_sync_state (g : LiveGroups) (root : LiveDataset)
    (children snaps : List LiveDataset) (self : String)
    (st : List VdevRow × List DatasetRec) : List VdevRow × List DatasetRec :=
  (sync_vdevs st.1 g, sync_datasets st.2 self root children snaps)

/-- `R` with `mapped` cleared on every row whose guid is not in `P`:
the state of a mapping pass that has re-marked exactly the guids `P`. -/
def maskExcept (R : List VdevRow) (P : List String) : List VdevRow :=
  R.map (fun r => if P.contains r.guid then r else { r with mapped := false })

/-- The guids a mapping pass actually marks in one group: every member's
guid, and the children's guids of non-disk members only (children of a
disk-typed member are never visited). -/
def mappedGroupGuids (vs : List LiveVdev) : List String :=
  vs.flatMap (fun v => v.guid ::
    (if v.type == "disk" then [] else v.children.map (fun c => c.guid)))

/-- All guids a full mapping pass marks. -/
def mappedGuids (g : LiveGroups) : List String :=
  mappedGroupGuids g.data ++ mappedGroupGuids g.cache ++
    mappedGroupGuids g.log ++ mappedGroupGuids g.spare

/-! ### Concrete inputs used by counterexamples and witnesses -/

/-- A mirror header row and a child disk row beneath it: the
`update_disks` loop matches the child row's `"disk"` type as well. -/
def c8Rows : List VdevRow :=
  [{ guid := "1", type := "mirror", status := "ONLINE", device_name := "mirror",
     mapped := true, idx := 1 },
   { guid := "10", type := "disk", status := "ONLINE", device_name := "da0",
     parent_device_name := "mirror", group_type := "mirror", mapped := true, idx := 2 }]

/-- The inventory record of the child disk of `c8Rows`. -/
def c8Disks : List DiskRec := [{ name := "da0", zfs_pool := "", health := "" }]

/-- A one-pool state with one owned dataset and one owned disk. -/
def c6State : SysState :=
  { pools := [("tank", [])],
    datasets := [{ name := "tank/a", zfs_pool := "tank", props := [] }],
    disks := [{ name := "da0", zfs_pool := "tank", health := "OK" }] }

/-- An empty record store. -/
def c9State : SysState := { pools := [], datasets := [], disks := [] }

/-- Empty live vdev groups. -/
def c9Groups : LiveGroups := { data := [], cache := [], log := [], spare := [] }

/-- A bare live root dataset. -/
def c9Root : LiveDataset := { name := "tank", props := [] }

/-- A persisted row carrying a stale `parent_device_name` while its guid is
live as a top-level disk: the first sync drops it (no header named
`"mirror-1"` survives), the second sync recreates it fresh. -/
def c2Rows : List VdevRow :=
  [{ guid := "1", parent_device_name := "mirror-1", mapped := true }]

/-- The live state for the C2 counterexample: guid `"1"` is now a plain
top-level disk. -/
def c2Groups : LiveGroups :=
  { data := [{ guid := "1", type := "disk", status := "ONLINE", size := 7,
               path := "/dev/ada0", children := [] }],
    cache := [], log := [], spare := [] }

/-- Live root dataset for the C2 counterexample. -/
def c2Root : LiveDataset := { name := "tank", props := [] }

/-- Stale persisted row: guid `"99"` is absent from `c1Groups`. -/
def c1Rows : List VdevRow := [{ guid := "99", mapped := true }]

/-- One live data-group disk with guid `"1"`. -/
def c1Groups : LiveGroups :=
  { data := [{ guid := "1", type := "disk", status := "ONLINE", size := 5,
               path := "/dev/ada0", children := [] }],
    cache := [], log := [], spare := [] }

/-- The single row produced by a mapping pass over `c1Groups`. -/
def c1OutRow : VdevRow :=
  { guid := "1", type := "disk", status := "ONLINE", size := 5,
    device_name := "ada0", parent_device_name := "", group_type := "",
    mapped := true, idx := 1 }

/-- The C4 witness group: three mirrors and a raidz. -/
def c4Group : List LiveVdev :=
  [{ guid := "a", type := "mirror", status := "", size := 0, path := "", children := [] },
   { guid := "b", type := "mirror", status := "", size := 0, path := "", children := [] },
   { guid := "c", type := "raidz", status := "", size := 0, path := "", children := [] },
   { guid := "d", type := "mirror", status := "", size := 0, path := "", children := [] }]

/-- The mirror scenario rows: one mapped header and one mapped child. -/
def c5WitnessRows : List VdevRow :=
  [{ guid := "1", type := "mirror", device_name := "mirror", mapped := true },
   { guid := "10", type := "disk", device_name := "ada0",
     parent_device_name := "mirror", group_type := "mirror", mapped := true }]

/-- The canonical rows of a pass bundled into header/children blocks. -/
def canonTS (g : LiveGroups) : List (VdevRow × List VdevRow) :=
  (tops (canonLoaded g)).map
    (fun t => (t, childrenOf (canonLoaded g) t.device_name))

/-! ### Theorems -/

theorem strip_partition_p_suffix (cs : List Char) (c : Char) :
    strip_partition (String.mk (cs ++ ['p', c])) = some (String.mk cs) := by
  unfold strip_partition
  have hlen : (cs ++ ['p', c]).length = cs.length + 2 := by simp
  have h2 : ¬ ((cs ++ ['p', c]).length < 2) := by omega
  have hsub : (cs ++ ['p', c]).length - 2 = cs.length := by omega
  show (if (cs ++ ['p', c]).length < 2 then none
    else if (cs ++ ['p', c]).getD ((cs ++ ['p', c]).length - 2) ' ' = 'p' then
      some (String.mk ((cs ++ ['p', c]).take ((cs ++ ['p', c]).length - 2)))
    else some (String.mk (cs ++ ['p', c]))) = some (String.mk cs)
  rw [if_neg h2, hsub, List.take_left]
  rw [List.getD_eq_getElem?_getD, List.getElem?_append_right (Nat.le_refl _)]
  simp

theorem strip_partition_no_p (s : String) (h2 : 2 ≤ s.toList.length)
    (hp : s.toList.getD (s.toList.length - 2) ' ' ≠ 'p') :
    strip_partition s = some s := by
  unfold strip_partition
  rw [if_neg (by omega), if_neg hp]

theorem strip_partition_short (s : String) (h : s.toList.length < 2) :
    strip_partition s = none := by
  unfold strip_partition
  rw [if_pos h]

/-- C3 counterexample: the code strips the last two characters whenever the
second-to-last character is `p`, even when the last character is not a
digit, so `"adapx"` is stripped to `"ada"` instead of being left unchanged
as the claim states. -/
theorem C3_cex :
    strip_partition "adapx" ≠ some "adapx" ∧ strip_partition "adapx" = some "ada" := by
  constructor
  · decide
  · rfl

/-- C3 (amended): a device name of the form `base ++ "p" ++ c` maps to
`base` for every final character `c` (digit or not); a name whose
second-to-last character is not `p` is unchanged; in particular `"ada0p1"`
maps to `"ada0"` and `"ada0"` is unchanged. -/
theorem C3_strip :
    (∀ (cs : List Char) (c : Char),
        strip_partition (String.mk (cs ++ ['p', c])) = some (String.mk cs))
  ∧ (∀ s : String, 2 ≤ s.toList.length →
        s.toList.getD (s.toList.length - 2) ' ' ≠ 'p' → strip_partition s = some s)
  ∧ strip_partition "ada0p1" = some "ada0"
  ∧ strip_partition "ada0" = some "ada0" :=
  ⟨strip_partition_p_suffix, strip_partition_no_p, rfl, rfl⟩

theorem C3_strip_witness :
    strip_partition "xy" = some "xy" :=
  C3_strip.2.1 "xy" (by decide) (by decide)

theorem update_disks_nil (self : String) (disks : List DiskRec) :
    update_disks self [] disks = .ok disks := rfl

theorem update_disks_not_ok_of_short (self : String) (rows : List VdevRow)
    (disks : List DiskRec) (r : VdevRow) (hr : r ∈ rows) (hty : r.type = "disk")
    (hshort : r.device_name.toList.length < 2) :
    ∀ ds, update_disks self rows disks ≠ .ok ds := by
  induction rows generalizing disks with
  | nil => cases hr
  | cons a rest ih =>
    intro ds
    rcases List.mem_cons.mp hr with h | h
    · subst h
      simp only [update_disks, hty, beq_self_eq_true, if_true,
        strip_partition_short _ hshort]
      intro hcontra; cases hcontra
    · by_cases ha : a.type == "disk"
      · simp only [update_disks, ha, if_true]
        cases hstrip : strip_partition a.device_name with
        | none => intro hcontra; cases hcontra
        | some dn =>
          by_cases hany : (disks.any (fun d => d.name == dn)) = true
          · simp only [hany, if_true]
            exact ih _ h ds
          · simp only [Bool.not_eq_true] at hany
            simp only [hany, Bool.false_eq_true, if_false]
            intro hcontra; cases hcontra
      · simp only [update_disks, ha, Bool.false_eq_true, if_false]
        exact ih _ h ds

theorem update_disks_first_disk_short (self : String) (rows : List VdevRow)
    (disks : List DiskRec) (r : VdevRow)
    (hfind : rows.find? (fun x => x.type == "disk") = some r)
    (hshort : r.device_name.toList.length < 2) :
    update_disks self rows disks = .error (.indexErr r.device_name) := by
  induction rows generalizing disks with
  | nil => cases hfind
  | cons a rest ih =>
    by_cases ha : (a.type == "disk") = true
    · simp only [List.find?, ha] at hfind
      have : a = r := by injection hfind
      subst this
      simp only [update_disks, ha, if_true, strip_partition_short _ hshort]
    · simp only [Bool.not_eq_true] at ha
      simp only [List.find?, ha] at hfind
      simp only [update_disks, ha, Bool.false_eq_true, if_false]
      exact ih _ hfind

/-- C10: the partition-suffix check reads the second-to-last character of
the device name, so a vdev row of type `"disk"` whose `device_name` is
shorter than two characters makes the disk-ownership update raise an
indexing error instead of completing; when such a row is the first row of
type `"disk"`, the result is exactly that indexing error. -/
theorem C10_short_device_name :
    (∀ (self : String) (rows : List VdevRow) (disks : List DiskRec) (r : VdevRow),
        r ∈ rows → r.type = "disk" → r.device_name.length < 2 →
        ∀ ds, update_disks self rows disks ≠ .ok ds)
  ∧ (∀ (self : String) (rows : List VdevRow) (disks : List DiskRec) (r : VdevRow),
        rows.find? (fun x => x.type == "disk") = some r →
        r.device_name.length < 2 →
        update_disks self rows disks = .error (.indexErr r.device_name)) :=
  ⟨fun self rows disks r hr hty hs =>
      update_disks_not_ok_of_short self rows disks r hr hty hs,
   fun self rows disks r hf hs =>
      update_disks_first_disk_short self rows disks r hf hs⟩

theorem C10_short_device_name_witness :
    update_disks "tank" [{ type := "disk", device_name := "a" }] [] =
      .error (.indexErr "a") :=
  C10_short_device_name.2 "tank" [{ type := "disk", device_name := "a" }] []
    { type := "disk", device_name := "a" } (by decide) (by decide)

theorem update_disks_filter_disk (self : String) (rows : List VdevRow)
    (disks : List DiskRec) :
    update_disks self rows disks =
      update_disks self (rows.filter (fun r => r.type == "disk")) disks := by
  induction rows generalizing disks with
  | nil => rfl
  | cons a rest ih =>
    by_cases ha : (a.type == "disk") = true
    · rw [List.filter_cons, if_pos ha]
      simp only [update_disks, ha, if_true]
      cases strip_partition a.device_name with
      | none => rfl
      | some dn =>
        by_cases hany : (disks.any (fun d => d.name == dn)) = true
        · simp only [hany, if_true]; exact ih _
        · simp only [Bool.not_eq_true] at hany
          simp only [hany, Bool.false_eq_true, if_false]
    · rw [List.filter_cons, if_neg (by simpa using ha)]
      simp only [Bool.not_eq_true] at ha
      simp only [update_disks, ha, Bool.false_eq_true, if_false]
      exact ih _

theorem update_disks_preserves_pool (self : String) (rows : List VdevRow) :
    ∀ (disks ds : List DiskRec), update_disks self rows disks = .ok ds →
    ∀ dn, (∃ d ∈ disks, d.name = dn ∧ d.zfs_pool = self) →
    ∃ d ∈ ds, d.name = dn ∧ d.zfs_pool = self := by
  induction rows with
  | nil =>
    intro disks ds h dn hex
    injection h with h; exact h ▸ hex
  | cons a rest ih =>
    intro disks ds h dn hex
    by_cases ha : (a.type == "disk") = true
    · simp only [update_disks, ha, if_true] at h
      cases hstrip : strip_partition a.device_name with
      | none => simp only [hstrip] at h; exact Except.noConfusion h
      | some dn2 =>
        simp only [hstrip] at h
        by_cases hany : (disks.any (fun d => d.name == dn2)) = true
        · rw [if_pos hany] at h
          refine ih _ _ h dn ?_
          obtain ⟨d, hd, hname, hpool⟩ := hex
          by_cases hdn : (d.name == dn2) = true
          · exact ⟨{ d with zfs_pool := self, health := a.status },
              List.mem_map.mpr ⟨d, hd, by simp [hdn]⟩, hname, rfl⟩
          · refine ⟨d, List.mem_map.mpr ⟨d, hd, by simp [hdn]⟩, hname, hpool⟩
        · simp only [Bool.not_eq_true] at hany
          rw [hany] at h; simp at h
    · simp only [Bool.not_eq_true] at ha
      simp only [update_disks, ha, Bool.false_eq_true, if_false] at h
      exact ih _ _ h dn hex

theorem update_disks_targets (self : String) (rows : List VdevRow) :
    ∀ (disks ds : List DiskRec), update_disks self rows disks = .ok ds →
    ∀ r ∈ rows, r.type = "disk" →
    ∃ dn, strip_partition r.device_name = some dn ∧
      ∃ d ∈ ds, d.name = dn ∧ d.zfs_pool = self := by
  induction rows with
  | nil => intro _ _ _ r hr; cases hr
  | cons a rest ih =>
    intro disks ds h r hr hty
    by_cases ha : (a.type == "disk") = true
    · simp only [update_disks, ha, if_true] at h
      cases hstrip : strip_partition a.device_name with
      | none => simp only [hstrip] at h; exact Except.noConfusion h
      | some dn2 =>
        simp only [hstrip] at h
        by_cases hany : (disks.any (fun d => d.name == dn2)) = true
        · rw [if_pos hany] at h
          rcases List.mem_cons.mp hr with rfl | hr'
          · refine ⟨dn2, hstrip, ?_⟩
            refine update_disks_preserves_pool self rest _ _ h dn2 ?_
            obtain ⟨d, hd, hdn⟩ := List.any_eq_true.mp hany
            refine ⟨{ d with zfs_pool := self, health := r.status },
              List.mem_map.mpr ⟨d, hd, by simp [hdn]⟩, by simpa using hdn, rfl⟩
          · exact ih _ _ h r hr' hty
        · simp only [Bool.not_eq_true] at hany
          rw [hany] at h; simp at h
    · rcases List.mem_cons.mp hr with rfl | hr'
      · exact absurd (by simp [hty]) ha
      · simp only [Bool.not_eq_true] at ha
        simp only [update_disks, ha, Bool.false_eq_true, if_false] at h
        exact ih _ _ h r hr' hty

theorem update_disks_untouched (self : String) (rows : List VdevRow) :
    ∀ (disks ds : List DiskRec), update_disks self rows disks = .ok ds →
    ∀ d ∈ disks, (∀ r ∈ rows, r.type = "disk" →
      strip_partition r.device_name ≠ some d.name) → d ∈ ds := by
  induction rows with
  | nil =>
    intro disks ds h d hd _
    injection h with h; exact h ▸ hd
  | cons a rest ih =>
    intro disks ds h d hd hnone
    by_cases ha : (a.type == "disk") = true
    · simp only [update_disks, ha, if_true] at h
      cases hstrip : strip_partition a.device_name with
      | none => simp only [hstrip] at h; exact Except.noConfusion h
      | some dn2 =>
        simp only [hstrip] at h
        by_cases hany : (disks.any (fun d => d.name == dn2)) = true
        · rw [if_pos hany] at h
          have hne : (d.name == dn2) = false := by
            have := hnone a (List.mem_cons_self a rest) (by simpa using ha)
            rw [hstrip] at this
            simp only [beq_eq_false_iff_ne, ne_eq]
            intro hcontra; exact this (by rw [hcontra])
          refine ih _ _ h d (List.mem_map.mpr ⟨d, hd, by simp [hne]⟩) ?_
          intro r hr hty; exact hnone r (List.mem_cons_of_mem a hr) hty
        · simp only [Bool.not_eq_true] at hany
          rw [hany] at h; simp at h
    · simp only [Bool.not_eq_true] at ha
      simp only [update_disks, ha, Bool.false_eq_true, if_false] at h
      exact ih _ _ h d hd (fun r hr hty => hnone r (List.mem_cons_of_mem a hr) hty)

theorem sync_one_dataset_preserves (records : List DatasetRec) (self : String)
    (d : LiveDataset) (n : String)
    (h : ∃ r ∈ records, r.name = n ∧ r.zfs_pool = self) :
    ∃ r ∈ sync_one_dataset records self d, r.name = n ∧ r.zfs_pool = self := by
  obtain ⟨r, hr, hn, hp⟩ := h
  unfold sync_one_dataset
  by_cases hany : (records.any (fun r => r.name == d.name)) = true
  · rw [if_pos hany]
    by_cases hrd : (r.name == d.name) = true
    · exact ⟨{ r with props := d.props, zfs_pool := self },
        List.mem_map.mpr ⟨r, hr, by rw [if_pos hrd]⟩, hn, rfl⟩
    · exact ⟨r, List.mem_map.mpr ⟨r, hr, by rw [if_neg (by simpa using hrd)]⟩, hn, hp⟩
  · rw [if_neg hany]
    exact ⟨r, List.mem_append_left _ hr, hn, hp⟩

theorem sync_one_dataset_mem_self (records : List DatasetRec) (self : String)
    (d : LiveDataset) :
    ∃ r ∈ sync_one_dataset records self d, r.name = d.name ∧ r.zfs_pool = self := by
  unfold sync_one_dataset
  by_cases hany : (records.any (fun r => r.name == d.name)) = true
  · rw [if_pos hany]
    obtain ⟨r0, hr0, hname⟩ := List.any_eq_true.mp hany
    exact ⟨{ r0 with props := d.props, zfs_pool := self },
      List.mem_map.mpr ⟨r0, hr0, by rw [if_pos hname]⟩, by simpa using hname, rfl⟩
  · rw [if_neg hany]
    exact ⟨{ name := d.name, zfs_pool := self, props := d.props },
      List.mem_append_right _ (List.mem_singleton.mpr rfl), rfl, rfl⟩

theorem sync_dataset_list_preserves (self : String) (ds : List LiveDataset) :
    ∀ (records : List DatasetRec) (n : String),
      (∃ r ∈ records, r.name = n ∧ r.zfs_pool = self) →
      ∃ r ∈ sync_dataset_list records self ds, r.name = n ∧ r.zfs_pool = self := by
  induction ds with
  | nil => intro records n h; exact h
  | cons d rest ih =>
    intro records n h
    exact ih _ n (sync_one_dataset_preserves records self d n h)

theorem sync_dataset_list_mem_self (self : String) (ds : List LiveDataset)
    (d : LiveDataset) (hd : d ∈ ds) :
    ∀ records : List DatasetRec,
      ∃ r ∈ sync_dataset_list records self ds, r.name = d.name ∧ r.zfs_pool = self := by
  induction ds with
  | nil => cases hd
  | cons a rest ih =>
    intro records
    rcases List.mem_cons.mp hd with rfl | hd'
    · exact sync_dataset_list_preserves self rest _ d.name
        (sync_one_dataset_mem_self records self d)
    · exact ih hd' _

/-- C7: after one dataset-sync pass, the persisted dataset records owned by
the pool are exactly the live datasets observed in the walk (root,
recursive children, recursive snapshots); in particular every observed
dataset survives the deletion step, which uses the complete seen set. -/
theorem C7_dataset_exactness :
    ∀ (records : List DatasetRec) (self : String) (root : LiveDataset)
      (children snaps : List LiveDataset),
      (∀ r ∈ sync_datasets records self root children snaps, r.zfs_pool = self →
        r.name = root.name ∨ (∃ d ∈ children, r.name = d.name) ∨
          (∃ d ∈ snaps, r.name = d.name))
    ∧ (∀ n, (n = root.name ∨ (∃ d ∈ children, n = d.name) ∨
          (∃ d ∈ snaps, n = d.name)) →
        ∃ r ∈ sync_datasets records self root children snaps,
          r.zfs_pool = self ∧ r.name = n) := by
  intro records self root children snaps
  constructor
  · intro r hr hpool
    unfold sync_datasets at hr
    have hcond := (List.mem_filter.mp hr).2
    simp only [hpool, beq_self_eq_true, Bool.true_and, Bool.not_not,
      Bool.not_eq_true'] at hcond
    have hmem : r.name ∈ seenNames root children snaps := by simpa using hcond
    unfold seenNames at hmem
    rcases List.mem_cons.mp hmem with h1 | hmem
    · exact Or.inl h1
    rcases List.mem_cons.mp hmem with h1 | hmem
    · exact Or.inl h1
    rcases List.mem_append.mp hmem with h2 | h3
    · obtain ⟨d, hd, hdn⟩ := List.mem_map.mp h2
      exact Or.inr (Or.inl ⟨d, hd, hdn.symm⟩)
    · obtain ⟨d, hd, hdn⟩ := List.mem_map.mp h3
      exact Or.inr (Or.inr ⟨d, hd, hdn.symm⟩)
  · intro n hn
    have hex : ∃ r ∈ sync_dataset_list
        (sync_dataset_list (sync_one_dataset records self root) self children)
        self snaps, r.name = n ∧ r.zfs_pool = self := by
      rcases hn with rfl | ⟨d, hd, rfl⟩ | ⟨d, hd, rfl⟩
      · exact sync_dataset_list_preserves self snaps _ _
          (sync_dataset_list_preserves self children _ _
            (sync_one_dataset_mem_self records self root))
      · exact sync_dataset_list_preserves self snaps _ _
          (sync_dataset_list_mem_self self children d hd _)
      · exact sync_dataset_list_mem_self self snaps d hd _
    obtain ⟨r, hr, hname, hpool⟩ := hex
    refine ⟨r, ?_, hpool, hname⟩
    unfold sync_datasets
    refine List.mem_filter.mpr ⟨hr, ?_⟩
    have hcont : (seenNames root children snaps).contains r.name = true := by
      rw [hname]
      have : n ∈ seenNames root children snaps := by
        unfold seenNames
        rcases hn with rfl | ⟨d, hd, rfl⟩ | ⟨d, hd, rfl⟩
        · exact List.mem_cons_self _ _
        · exact List.mem_cons_of_mem _ (List.mem_cons_of_mem _
            (List.mem_append_left _ (List.mem_map_of_mem _ hd)))
        · exact List.mem_cons_of_mem _ (List.mem_cons_of_mem _
            (List.mem_append_right _ (List.mem_map_of_mem _ hd)))
      simpa using this
    simp only [Bool.not_eq_true', Bool.and_eq_false_iff, Bool.not_eq_true,
      Bool.not_eq_false] at *
    exact Or.inr (by simpa using hcont)

theorem C7_dataset_exactness_witness :
    ∃ r ∈ sync_datasets [] "tank" c9Root [] [], r.zfs_pool = "tank" ∧ r.name = "tank" :=
  (C7_dataset_exactness [] "tank" c9Root [] []).2 "tank" (Or.inl rfl)

theorem mem_listModify {α : Type} (f : α → α) :
    ∀ (l : List α) (i : Nat), ∀ x ∈ listModify l i f, x ∈ l ∨ ∃ y ∈ l, x = f y := by
  intro l
  induction l with
  | nil => intro i x hx; cases hx
  | cons a rest ih =>
    intro i x hx
    cases i with
    | zero =>
      rcases List.mem_cons.mp hx with rfl | hx'
      · exact Or.inr ⟨a, List.mem_cons_self _ _, rfl⟩
      · exact Or.inl (List.mem_cons_of_mem _ hx')
    | succ n =>
      rcases List.mem_cons.mp hx with rfl | hx'
      · exact Or.inl (List.mem_cons_self _ _)
      · rcases ih n x hx' with h | ⟨y, hy, hxy⟩
        · exact Or.inl (List.mem_cons_of_mem _ h)
        · exact Or.inr ⟨y, List.mem_cons_of_mem _ hy, hxy⟩

theorem listModify_keep {α : Type} (P : α → Prop) (l : List α) (i : Nat)
    (f : α → α) (hl : ∀ r ∈ l, P r) (hf : ∀ r ∈ l, P (f r)) :
    ∀ r ∈ listModify l i f, P r := by
  intro r hr
  rcases mem_listModify f l i r hr with h | ⟨y, hy, rfl⟩
  · exact hl r h
  · exact hf y hy

theorem add_vdev_inv (SG : String → Prop) (rows : List VdevRow)
    (guid ty status : String) (size : Nat) (is_child : Bool)
    (hrows : ∀ r ∈ rows, r.mapped = true → SG r.guid) (hg : SG guid) :
    ∀ r ∈ (add_vdev rows guid ty status size is_child).1,
      r.mapped = true → SG r.guid := by
  intro r hr
  unfold add_vdev at hr
  simp only at hr
  rcases mem_listModify _ _ _ r hr with h | ⟨y, hy, rfl⟩
  · cases hf : get_vdev_row_idx rows guid with
    | some i =>
      rw [hf] at h
      exact hrows r h
    | none =>
      rw [hf] at h
      rcases List.mem_append.mp h with h' | h'
      · exact hrows r h'
      · intro hm
        rw [List.mem_singleton.mp h'] at hm
        cases hm
  · intro _
    cases is_child <;> simpa using hg

theorem load_children_inv (SG : String → Prop) (p : Nat) (cs : List LiveChild) :
    ∀ rows : List VdevRow, (∀ r ∈ rows, r.mapped = true → SG r.guid) →
    (∀ c ∈ cs, SG c.guid) →
    ∀ r ∈ load_children rows p cs, r.mapped = true → SG r.guid := by
  induction cs with
  | nil => intro rows hrows _; exact hrows
  | cons c cs ih =>
    intro rows hrows hcs
    simp only [load_children]
    refine ih _ ?_ (fun c' hc' => hcs c' (List.mem_cons_of_mem _ hc'))
    have h1 := add_vdev_inv SG rows c.guid c.type c.status 0 true hrows
      (hcs c (List.mem_cons_self _ _))
    exact listModify_keep _ _ _ _
      (listModify_keep _ _ _ _ (listModify_keep _ _ _ _ h1 h1)
        (listModify_keep _ _ _ _ h1 h1))
      (listModify_keep _ _ _ _ (listModify_keep _ _ _ _ h1 h1)
        (listModify_keep _ _ _ _ h1 h1))

theorem load_group_aux_inv (SG : String → Prop) (gs : List LiveVdev)
    (vs : List LiveVdev) :
    ∀ (rows : List VdevRow) (added : List (String × Nat)),
    (∀ r ∈ rows, r.mapped = true → SG r.guid) →
    (∀ v ∈ vs, SG v.guid ∧ ∀ c ∈ v.children, SG c.guid) →
    ∀ r ∈ load_group_aux gs rows added vs, r.mapped = true → SG r.guid := by
  induction vs with
  | nil => intro rows added hrows _; exact hrows
  | cons v vs ih =>
    intro rows added hrows hvs
    have hv := hvs v (List.mem_cons_self _ _)
    have hvs' := fun v' hv' => hvs v' (List.mem_cons_of_mem _ hv')
    have h1 := add_vdev_inv SG rows v.guid v.type v.status v.size false hrows hv.1
    by_cases hd : (v.type == "disk") = true
    · simp only [load_group_aux, hd, if_true]
      exact ih _ _ (listModify_keep _ _ _ _ h1 h1) hvs'
    · simp only [load_group_aux, hd, Bool.false_eq_true, if_false]
      refine ih _ _ ?_ hvs'
      exact load_children_inv SG _ v.children _ (listModify_keep _ _ _ _ h1 h1) hv.2

theorem mem_groupGuids_self (gs : List LiveVdev) (v : LiveVdev) (hv : v ∈ gs) :
    v.guid ∈ groupGuids gs :=
  List.mem_flatMap.mpr ⟨v, hv, List.mem_cons_self _ _⟩

theorem mem_groupGuids_child (gs : List LiveVdev) (v : LiveVdev) (hv : v ∈ gs)
    (c : LiveChild) (hc : c ∈ v.children) : c.guid ∈ groupGuids gs :=
  List.mem_flatMap.mpr ⟨v, hv, List.mem_cons_of_mem _ (List.mem_map_of_mem _ hc)⟩

theorem load_group_inv (SG : String → Prop) (gs : List LiveVdev)
    (rows : List VdevRow)
    (hrows : ∀ r ∈ rows, r.mapped = true → SG r.guid)
    (hgs : ∀ v ∈ gs, SG v.guid ∧ ∀ c ∈ v.children, SG c.guid) :
    ∀ r ∈ load_group rows gs, r.mapped = true → SG r.guid :=
  load_group_aux_inv SG gs gs rows [] hrows hgs

theorem load_vdevs_inv (g : LiveGroups) (rows : List VdevRow)
    (hrows : ∀ r ∈ rows, r.mapped = true → r.guid ∈ liveGuids g) :
    ∀ r ∈ load_vdevs rows g, r.mapped = true → r.guid ∈ liveGuids g := by
  unfold load_vdevs
  have hdata : ∀ v ∈ g.data, v.guid ∈ liveGuids g ∧
      ∀ c ∈ v.children, c.guid ∈ liveGuids g := by
    intro v hv
    unfold liveGuids
    exact ⟨List.mem_append_left _ (List.mem_append_left _ (List.mem_append_left _
        (mem_groupGuids_self _ v hv))),
      fun c hc => List.mem_append_left _ (List.mem_append_left _
        (List.mem_append_left _ (mem_groupGuids_child _ v hv c hc)))⟩
  have hcache : ∀ v ∈ g.cache, v.guid ∈ liveGuids g ∧
      ∀ c ∈ v.children, c.guid ∈ liveGuids g := by
    intro v hv
    unfold liveGuids
    exact ⟨List.mem_append_left _ (List.mem_append_left _ (List.mem_append_right _
        (mem_groupGuids_self _ v hv))),
      fun c hc => List.mem_append_left _ (List.mem_append_left _
        (List.mem_append_right _ (mem_groupGuids_child _ v hv c hc)))⟩
  have hlog : ∀ v ∈ g.log, v.guid ∈ liveGuids g ∧
      ∀ c ∈ v.children, c.guid ∈ liveGuids g := by
    intro v hv
    unfold liveGuids
    exact ⟨List.mem_append_left _ (List.mem_append_right _
        (mem_groupGuids_self _ v hv)),
      fun c hc => List.mem_append_left _ (List.mem_append_right _
        (mem_groupGuids_child _ v hv c hc))⟩
  have hspare : ∀ v ∈ g.spare, v.guid ∈ liveGuids g ∧
      ∀ c ∈ v.children, c.guid ∈ liveGuids g := by
    intro v hv
    unfold liveGuids
    exact ⟨List.mem_append_right _ (mem_groupGuids_self _ v hv),
      fun c hc => List.mem_append_right _ (mem_groupGuids_child _ v hv c hc)⟩
  exact load_group_inv _ _ _
    (load_group_inv _ _ _
      (load_group_inv _ _ _
        (load_group_inv _ _ _ hrows hdata) hcache) hlog) hspare

theorem mem_idxFrom (l : List VdevRow) :
    ∀ (n : Nat), ∀ q ∈ idxFrom n l, q.2 ∈ l := by
  induction l with
  | nil => intro n q hq; cases hq
  | cons a rest ih =>
    intro n q hq
    rcases List.mem_cons.mp hq with rfl | hq'
    · exact List.mem_cons_self _ _
    · exact List.mem_cons_of_mem _ (ih (n + 1) q hq')

theorem mem_buildOrder (all : List (Nat × VdevRow)) :
    ∀ rest, ∀ q ∈ buildOrder all rest, q ∈ all ∨ q ∈ rest := by
  intro rest
  induction rest with
  | nil => intro q hq; cases hq
  | cons a rest ih =>
    intro q hq
    by_cases hp : a.2.parent_device_name ≠ ""
    · rw [buildOrder, if_pos hp] at hq
      rcases ih q hq with h | h
      · exact Or.inl h
      · exact Or.inr (List.mem_cons_of_mem _ h)
    · rw [buildOrder, if_neg hp] at hq
      rcases List.mem_append.mp hq with h | h
      · rcases List.mem_cons.mp h with rfl | h'
        · exact Or.inr (List.mem_cons_self _ _)
        · by_cases ht : a.2.type ≠ "disk"
          · rw [if_pos ht] at h'
            exact Or.inl (List.mem_of_mem_filter h')
          · rw [if_neg ht] at h'
            cases h'
      · rcases ih q h with h' | h'
        · exact Or.inl h'
        · exact Or.inr (List.mem_cons_of_mem _ h')

theorem fix_vdev_ordering_mem (rows : List VdevRow) :
    ∀ x ∈ fix_vdev_ordering rows, ∃ r ∈ rows, r.mapped = true ∧ x.guid = r.guid := by
  intro x hx
  unfold fix_vdev_ordering at hx
  simp only at hx
  obtain ⟨q, hq, rfl⟩ := List.mem_map.mp hx
  have hq2 : q ∈ idxFrom 0 (rows.filter (fun r => r.mapped)) := by
    rcases mem_buildOrder _ _ q hq with h | h <;> exact h
  have hq3 := mem_idxFrom _ 0 q hq2
  have hmem := List.mem_filter.mp hq3
  exact ⟨q.2, hmem.1, by simpa using hmem.2, rfl⟩

theorem sync_one_dataset_keep_unique (records : List DatasetRec) (self : String)
    (d : LiveDataset) (r : DatasetRec) (hne : d.name ≠ r.name)
    (hr : r ∈ records) (huniq : ∀ x ∈ records, x.name = r.name → x = r) :
    r ∈ sync_one_dataset records self d ∧
      ∀ x ∈ sync_one_dataset records self d, x.name = r.name → x = r := by
  unfold sync_one_dataset
  by_cases hany : (records.any (fun x => x.name == d.name)) = true
  · rw [if_pos hany]
    have hrd : (r.name == d.name) = false := by
      simp only [beq_eq_false_iff_ne, ne_eq]
      exact fun h => hne h.symm
    constructor
    · exact List.mem_map.mpr ⟨r, hr, by rw [if_neg (by simp [hrd])]⟩
    · intro x hx hxname
      obtain ⟨s, hs, hsx⟩ := List.mem_map.mp hx
      by_cases hsd : (s.name == d.name) = true
      · rw [if_pos hsd] at hsx
        exfalso
        apply hne
        rw [← hxname, ← hsx]
        exact (eq_of_beq hsd).symm ▸ rfl
      · rw [if_neg (by simp_all)] at hsx
        subst hsx
        exact huniq s hs hxname
  · rw [if_neg hany]
    constructor
    · exact List.mem_append_left _ hr
    · intro x hx hxname
      rcases List.mem_append.mp hx with h | h
      · exact huniq x h hxname
      · exfalso
        rw [List.mem_singleton.mp h] at hxname
        exact hne hxname

theorem sync_dataset_list_keep_unique (self : String) (ds : List LiveDataset)
    (r : DatasetRec) (hne : ∀ d ∈ ds, d.name ≠ r.name) :
    ∀ records : List DatasetRec, r ∈ records →
      (∀ x ∈ records, x.name = r.name → x = r) →
      r ∈ sync_dataset_list records self ds ∧
        ∀ x ∈ sync_dataset_list records self ds, x.name = r.name → x = r := by
  induction ds with
  | nil => intro records hr huniq; exact ⟨hr, huniq⟩
  | cons d rest ih =>
    intro records hr huniq
    have step := sync_one_dataset_keep_unique records self d r
      (hne d (List.mem_cons_self _ _)) hr huniq
    exact ih (fun d' hd' => hne d' (List.mem_cons_of_mem _ hd')) _ step.1 step.2

theorem sync_datasets_stale_deleted (records : List DatasetRec) (self : String)
    (root : LiveDataset) (children snaps : List LiveDataset) (r : DatasetRec)
    (hnd : (records.map (fun x => x.name)).Nodup)
    (hr : r ∈ records) (hpool : r.zfs_pool = self)
    (hroot : r.name ≠ root.name)
    (hch : ∀ d ∈ children, r.name ≠ d.name)
    (hsn : ∀ d ∈ snaps, r.name ≠ d.name) :
    ∀ x ∈ sync_datasets records self root children snaps, x.name ≠ r.name := by
  have huniq0 : ∀ x ∈ records, x.name = r.name → x = r := by
    intro x hx hxname
    exact List.inj_on_of_nodup_map hnd hx hr hxname
  have h1 := sync_one_dataset_keep_unique records self root r
    (fun h => hroot h.symm) hr huniq0
  have h2 := sync_dataset_list_keep_unique self children r
    (fun d hd h => hch d hd h.symm) _ h1.1 h1.2
  have h3 := sync_dataset_list_keep_unique self snaps r
    (fun d hd h => hsn d hd h.symm) _ h2.1 h2.2
  intro x hx hxname
  unfold sync_datasets at hx
  have hx' := List.mem_filter.mp hx
  have hxr : x = r := h3.2 x hx'.1 hxname
  subst hxr
  have hcond := hx'.2
  simp only [hpool, beq_self_eq_true, Bool.true_and, Bool.not_not] at hcond
  have hmem : x.name ∈ seenNames root children snaps := by simpa using hcond
  unfold seenNames at hmem
  rcases List.mem_cons.mp hmem with h | hmem
  · exact hroot h
  rcases List.mem_cons.mp hmem with h | hmem
  · exact hroot h
  rcases List.mem_append.mp hmem with h | h
  · obtain ⟨d, hd, hdn⟩ := List.mem_map.mp h
    exact hch d hd hdn.symm
  · obtain ⟨d, hd, hdn⟩ := List.mem_map.mp h
    exact hsn d hd hdn.symm

theorem reset_mapped_false (rows : List VdevRow) :
    ∀ r ∈ reset_mapped rows, r.mapped = false := by
  intro r hr
  obtain ⟨s, _, rfl⟩ := List.mem_map.mp hr
  rfl

/-- C1: mark-and-sweep staleness removal.  A persisted vdev row whose guid
does not occur anywhere in the live groups cannot appear in the ordered
collection produced by a full mapping pass; every row's `mapped` flag is
false after the start-of-pass reset, which runs before the groups are
processed (`sync_vdevs` is exactly order-after-load-after-reset); and a
dataset record of this pool whose name is not observed anywhere in the
current walk is deleted by the dataset pass. -/
theorem C1_mark_and_sweep :
    (∀ (rows : List VdevRow) (g : LiveGroups) (r : VdevRow), r ∈ rows →
        r.guid ∉ liveGuids g → ∀ x ∈ sync_vdevs rows g, x.guid ≠ r.guid)
  ∧ (∀ rows : List VdevRow, ∀ r ∈ reset_mapped rows, r.mapped = false)
  ∧ (∀ (rows : List VdevRow) (g : LiveGroups),
        sync_vdevs rows g = fix_vdev_ordering (load_vdevs (reset_mapped rows) g))
  ∧ (∀ (records : List DatasetRec) (self : String) (root : LiveDataset)
        (children snaps : List LiveDataset) (r : DatasetRec),
        (records.map (fun x => x.name)).Nodup →
        r ∈ records → r.zfs_pool = self → r.name ≠ root.name →
        (∀ d ∈ children, r.name ≠ d.name) → (∀ d ∈ snaps, r.name ≠ d.name) →
        ∀ x ∈ sync_datasets records self root children snaps, x.name ≠ r.name) := by
  refine ⟨?_, reset_mapped_false, fun _ _ => rfl, ?_⟩
  · intro rows g r _ hstale x hx
    have hinv := load_vdevs_inv g (reset_mapped rows)
      (fun s hs hm => absurd (reset_mapped_false rows s hs ▸ hm) (by simp))
    obtain ⟨s, hs, hsm, hguid⟩ := fix_vdev_ordering_mem _ x hx
    rw [hguid]
    intro hcontra
    exact hstale (hcontra ▸ hinv s hs hsm)
  · intro records self root children snaps r hnd hr hpool hroot hch hsn
    exact sync_datasets_stale_deleted records self root children snaps r
      hnd hr hpool hroot hch hsn

theorem C1_mark_and_sweep_witness : c1OutRow.guid ≠ "99" :=
  C1_mark_and_sweep.1 c1Rows c1Groups { guid := "99", mapped := true }
    (by decide) (by decide) c1OutRow (by decide)

theorem get_vdev_row_idx_none (rows : List VdevRow) (g : String)
    (h : ∀ r ∈ rows, r.guid ≠ g) : get_vdev_row_idx rows g = none := by
  unfold get_vdev_row_idx
  rw [List.findIdx?_eq_none_iff]
  intro r hr
  simpa using h r hr

theorem listModify_append_length {α : Type} (l : List α) (x : α) (f : α → α) :
    listModify (l ++ [x]) l.length f = l ++ [f x] := by
  induction l with
  | nil => rfl
  | cons a rest ih => simpa [listModify] using ih

theorem add_vdev_fresh (rows : List VdevRow) (g ty status : String) (size : Nat)
    (is_child : Bool) (h : ∀ r ∈ rows, r.guid ≠ g) :
    add_vdev rows g ty status size is_child =
      (rows ++ [{ guid := g, type := ty, status := status,
                  size := if is_child then 0 else size, mapped := true }],
       rows.length) := by
  unfold add_vdev
  rw [get_vdev_row_idx_none rows g h]
  simp only [listModify_append_length]
  cases is_child <;> rfl

theorem get?_append_left' {α : Type} (l l2 : List α) (n : Nat) (h : n < l.length) :
    (l ++ l2).get? n = l.get? n := by
  simp only [List.get?_eq_getElem?]
  exact List.getElem?_append_left h

theorem load_children_canon (p : Nat) (pr : VdevRow) :
    ∀ (cs : List LiveChild) (rows : List VdevRow),
    rows.get? p = some pr →
    (∀ r ∈ rows, ∀ c ∈ cs, r.guid ≠ c.guid) →
    (cs.map (fun c => c.guid)).Nodup →
    load_children rows p cs = rows ++ cs.map (childRowOf pr.type pr.device_name) := by
  intro cs
  induction cs with
  | nil => intro rows _ _ _; simp [load_children]
  | cons c cs ih =>
    intro rows hp hfresh hnd
    have hplt : p < rows.length := (List.get?_eq_some.mp hp).1
    have hfreshc : ∀ r ∈ rows, r.guid ≠ c.guid :=
      fun r hr => hfresh r hr c (List.mem_cons_self _ _)
    simp only [load_children, add_vdev_fresh rows c.guid c.type c.status 0 true hfreshc]
    rw [get?_append_left' _ _ _ hplt, hp]
    rw [listModify_append_length]
    rw [listModify_append_length]
    rw [get?_append_left' _ _ _ hplt, hp]
    rw [listModify_append_length]
    rw [ih (rows ++ [_]) ?hp2 ?hfresh2 (by simpa using hnd.of_cons)]
    case hp2 =>
      rw [get?_append_left' _ _ _ hplt, hp]
    case hfresh2 =>
      intro r hr c' hc'
      rcases List.mem_append.mp hr with h | h
      · exact hfresh r h c' (List.mem_cons_of_mem _ hc')
      · rw [List.mem_singleton.mp h]
        show c.guid ≠ c'.guid
        intro hcontra
        have : c.guid ∈ cs.map (fun c => c.guid) :=
          hcontra ▸ List.mem_map_of_mem _ hc'
        exact (List.nodup_cons.mp (by simpa using hnd)).1 this
    simp [childRowOf]

theorem addedBump_fst (added : List (String × Nat)) (t : String) :
    (addedBump added t).1 = (addedGet added t).getD 1 := by
  unfold addedBump addedGet
  cases added.find? (fun kv => kv.1 == t) <;> rfl

theorem find?_map_update (added : List (String × Nat)) (t : String) (n : Nat) :
    (added.map (fun kv2 => if kv2.1 == t then (kv2.1, n) else kv2)).find?
        (fun kv => kv.1 == t) =
      (added.find? (fun kv => kv.1 == t)).map (fun kv => (kv.1, n)) := by
  induction added with
  | nil => rfl
  | cons kv rest ih =>
    rw [List.map_cons]
    by_cases h : (kv.1 == t) = true
    · rw [if_pos h]
      simp only [List.find?_cons, h]
      rfl
    · simp only [Bool.not_eq_true] at h
      rw [if_neg (by simp [h])]
      simp only [List.find?_cons, h]
      exact ih

theorem find?_map_update_other (added : List (String × Nat)) (t u : String)
    (n : Nat) (hne : u ≠ t) :
    (added.map (fun kv2 => if kv2.1 == t then (kv2.1, n) else kv2)).find?
        (fun kv => kv.1 == u) = added.find? (fun kv => kv.1 == u) := by
  induction added with
  | nil => rfl
  | cons kv rest ih =>
    rw [List.map_cons]
    by_cases h : (kv.1 == t) = true
    · have hu : (kv.1 == u) = false := by
        simp only [beq_eq_false_iff_ne, ne_eq]
        intro hc
        exact hne (hc ▸ eq_of_beq h)
      rw [if_pos h]
      simp only [List.find?_cons, hu]
      exact ih
    · simp only [Bool.not_eq_true] at h
      rw [if_neg (by simp [h])]
      by_cases hu : (kv.1 == u) = true
      · simp only [List.find?_cons, hu]
      · simp only [Bool.not_eq_true] at hu
        simp only [List.find?_cons, hu]
        exact ih

theorem addedGet_bump_self (added : List (String × Nat)) (t : String) :
    addedGet (addedBump added t).2 t = some ((addedGet added t).getD 1 + 1) := by
  unfold addedBump addedGet
  cases hf : added.find? (fun kv => kv.1 == t) with
  | some kv =>
    simp only
    rw [find?_map_update, hf]
    rfl
  | none =>
    simp only
    rw [List.find?_append, hf]
    simp [List.find?_cons]

theorem addedGet_bump_other (added : List (String × Nat)) (t u : String)
    (hne : u ≠ t) :
    addedGet (addedBump added t).2 u = addedGet added u := by
  unfold addedBump addedGet
  cases hf : added.find? (fun kv => kv.1 == t) with
  | some kv =>
    simp only
    rw [find?_map_update_other _ _ _ _ hne]
  | none =>
    simp only
    rw [List.find?_append]
    have : List.find? (fun kv => kv.1 == u) [(t, 2)] = none := by
      have ht : (t == u) = false := by
        simp only [beq_eq_false_iff_ne, ne_eq]
        exact fun h => hne h.symm
      simp [List.find?_cons, ht]
    rw [this]
    cases added.find? (fun kv => kv.1 == u) <;> rfl

theorem typeCount_append_single (l : List LiveVdev) (v : LiveVdev) (t : String) :
    typeCount (l ++ [v]) t =
      if v.type == t then typeCount l t + 1 else typeCount l t := by
  unfold typeCount
  rw [List.filter_append]
  by_cases h : (v.type == t) = true
  · simp [h]
  · simp only [Bool.not_eq_true] at h
    simp [h]

theorem get?_concat_length {α : Type} (l : List α) (x : α) :
    (l ++ [x]).get? l.length = some x := by
  induction l with
  | nil => rfl
  | cons a rest ih => simpa using ih

theorem groupGuids_cons (v : LiveVdev) (rest : List LiveVdev) :
    groupGuids (v :: rest) =
      (v.guid :: v.children.map (fun c => c.guid)) ++ groupGuids rest := by
  unfold groupGuids
  simp [List.flatMap_cons]

theorem load_group_aux_canon (gs : List LiveVdev) :
    ∀ (vs pre : List LiveVdev) (rows : List VdevRow) (added : List (String × Nat)),
    gs = pre ++ vs →
    (∀ t, t ≠ "disk" → addedGet added t =
      if 1 < typeCount gs t ∧ 1 ≤ typeCount pre t then some (typeCount pre t + 1)
      else none) →
    (∀ r ∈ rows, r.guid ∉ groupGuids vs) →
    (groupGuids vs).Nodup →
    load_group_aux gs rows added vs = rows ++ canonGroupAux gs pre vs := by
  intro vs
  induction vs with
  | nil => intro pre rows added _ _ _ _; simp [load_group_aux, canonGroupAux]
  | cons v rest ih =>
    intro pre rows added hgs hadded hfresh hnd
    rw [groupGuids_cons] at hnd hfresh
    have hndparts : ((∀ x ∈ v.children, ¬x.guid = v.guid) ∧
        v.guid ∉ groupGuids rest) ∧
        (List.map (fun c => c.guid) v.children ++ groupGuids rest).Nodup := by
      simpa using hnd
    have hndc : ∀ x ∈ v.children, ¬x.guid = v.guid := hndparts.1.1
    have hndr : v.guid ∉ groupGuids rest := hndparts.1.2
    have hndtail : (List.map (fun c => c.guid) v.children ++ groupGuids rest).Nodup :=
      hndparts.2
    have hfreshv : ∀ r ∈ rows, r.guid ≠ v.guid := by
      intro r hr hc
      exact hfresh r hr (by simp [hc])
    have hstep := add_vdev_fresh rows v.guid v.type v.status v.size false hfreshv
    by_cases hd : (v.type == "disk") = true
    · simp only [load_group_aux, hstep, hd, if_true]
      rw [listModify_append_length]
      rw [ih (pre ++ [v]) _ added (by rw [hgs, List.append_assoc]; rfl) ?hadd2 ?hfr2 ?hnd2]
      case hadd2 =>
        intro t ht
        rw [hadded t ht, typeCount_append_single]
        have : (v.type == t) = false := by
          simp only [beq_eq_false_iff_ne, ne_eq]
          intro hc
          exact ht (hc ▸ eq_of_beq hd)
        rw [this]
        simp
      case hfr2 =>
        intro r hr
        rcases List.mem_append.mp hr with h | h
        · intro hc
          exact hfresh r h (List.mem_append_right _ hc)
        · rw [List.mem_singleton.mp h]
          exact hndr
      case hnd2 =>
        exact (List.nodup_append.mp hndtail).2.1
      · rw [canonGroupAux, if_pos hd]
        simp [topRowOf]
    · simp only [load_group_aux, hstep, hd, Bool.false_eq_true, if_false]
      have hnotdisk : v.type ≠ "disk" := by
        intro hc
        rw [hc] at hd
        simp at hd
      have hchnd : (v.children.map (fun c => c.guid)).Nodup :=
        (List.nodup_append.mp hndtail).1
      have hchdisj : ∀ c ∈ v.children, c.guid ∉ groupGuids rest := by
        intro c hc hcr
        exact (List.nodup_append.mp hndtail).2.2 (List.mem_map_of_mem _ hc) hcr
      have hgetd : (addedGet added v.type).getD 1 = typeCount pre v.type + 1 := by
        rw [hadded v.type hnotdisk]
        by_cases hpre : 1 ≤ typeCount pre v.type
        · by_cases hgl : 1 < typeCount gs v.type
          · rw [if_pos ⟨hgl, hpre⟩]; rfl
          · rw [if_neg (fun hc => hgl hc.1)]
            exfalso
            have hvgs : v ∈ gs := by
              rw [hgs]; exact List.mem_append_right _ (List.mem_cons_self _ _)
            have h1 : 1 ≤ typeCount gs v.type := by
              unfold typeCount
              have : v ∈ gs.filter (fun w => w.type == v.type) :=
                List.mem_filter.mpr ⟨hvgs, by simp⟩
              exact List.length_pos.mpr (fun hemp => by simp [hemp] at this)
            have h2 : typeCount pre v.type + typeCount [v] v.type +
                typeCount rest v.type = typeCount gs v.type := by
              unfold typeCount
              rw [hgs]
              simp only [List.filter_append, List.length_append]
              simp [List.filter_cons]
              omega
            have h3 : typeCount [v] v.type = 1 := by
              unfold typeCount
              simp
            omega
        · rw [if_neg (fun hc => hpre hc.2)]
          have : typeCount pre v.type = 0 := by omega
          rw [this]
          rfl
      by_cases hlen : (gs.filter (fun w => w.type == v.type)).length > 1
      · have hlen2 : 1 < typeCount gs v.type := hlen
        rw [if_pos hlen]
        have hcn : containerName gs pre v =
            v.type ++ "-" ++ toString (addedBump added v.type).1 := by
          unfold containerName
          rw [if_pos hlen2, addedBump_fst, hgetd]
        rw [listModify_append_length]
        rw [load_children_canon rows.length
            (topRowOf (containerName gs pre v) v) v.children _ ?hget ?hfr3 hchnd]
        case hget =>
          rw [hcn]
          exact get?_concat_length rows _
        case hfr3 =>
          intro r hr c hc
          rcases List.mem_append.mp hr with h | h
          · intro hcontra
            exact hfresh r h (List.mem_append_left _
              (List.mem_cons_of_mem _ (hcontra ▸ List.mem_map_of_mem _ hc)))
          · rw [List.mem_singleton.mp h]
            show v.guid ≠ c.guid
            intro hcontra
            exact hndc c hc hcontra.symm
        · rw [ih (pre ++ [v]) _ ((addedBump added v.type).2)
              (by rw [hgs, List.append_assoc]; rfl) ?hadd3 ?hfr4 ?hnd3]
          case hadd3 =>
            intro t ht
            by_cases htv : t = v.type
            · subst htv
              rw [addedGet_bump_self, hgetd, typeCount_append_single]
              simp only [beq_self_eq_true, if_true]
              rw [if_pos ⟨hlen, by omega⟩]
            · rw [addedGet_bump_other added _ _ htv, hadded t ht,
                typeCount_append_single]
              have : (v.type == t) = false := by
                simp only [beq_eq_false_iff_ne, ne_eq]
                exact fun hc => htv hc.symm
              rw [this]
              simp
          case hfr4 =>
            intro r hr
            rcases List.mem_append.mp hr with h | h
            · rcases List.mem_append.mp h with h2 | h2
              · intro hc
                exact hfresh r h2 (List.mem_append_right _ hc)
              · rw [List.mem_singleton.mp h2]
                exact hndr
            · obtain ⟨c, hc, rfl⟩ := List.mem_map.mp h
              exact hchdisj c hc
          case hnd3 =>
            exact (List.nodup_append.mp hndtail).2.1
          rw [canonGroupAux, if_neg (by simp [hd])]
          rw [hcn]
          simp [topRowOf]
      · rw [if_neg hlen]
        have hgl : ¬ 1 < typeCount gs v.type := hlen
        have hcn : containerName gs pre v = v.type := by
          unfold containerName
          rw [if_neg hgl]
        rw [listModify_append_length]
        rw [load_children_canon rows.length
            (topRowOf (containerName gs pre v) v) v.children _ ?hgetB ?hfrB hchnd]
        case hgetB =>
          rw [hcn]
          exact get?_concat_length rows _
        case hfrB =>
          intro r hr c hc
          rcases List.mem_append.mp hr with h | h
          · intro hcontra
            exact hfresh r h (List.mem_append_left _
              (List.mem_cons_of_mem _ (hcontra ▸ List.mem_map_of_mem _ hc)))
          · rw [List.mem_singleton.mp h]
            show v.guid ≠ c.guid
            intro hcontra
            exact hndc c hc hcontra.symm
        · rw [ih (pre ++ [v]) _ added
              (by rw [hgs, List.append_assoc]; rfl) ?haddB ?hfrB2 ?hndB]
          case haddB =>
            intro t ht
            rw [hadded t ht, typeCount_append_single]
            by_cases htv : t = v.type
            · subst htv
              rw [if_neg (fun hc => hgl hc.1), if_neg (fun hc => hgl hc.1)]
            · have : (v.type == t) = false := by
                simp only [beq_eq_false_iff_ne, ne_eq]
                exact fun hc => htv hc.symm
              rw [this]
              simp
          case hfrB2 =>
            intro r hr
            rcases List.mem_append.mp hr with h | h
            · rcases List.mem_append.mp h with h2 | h2
              · intro hc
                exact hfresh r h2 (List.mem_append_right _ hc)
              · rw [List.mem_singleton.mp h2]
                exact hndr
            · obtain ⟨c, hc, rfl⟩ := List.mem_map.mp h
              exact hchdisj c hc
          case hndB =>
            exact (List.nodup_append.mp hndtail).2.1
          rw [canonGroupAux, if_neg (by simp [hd])]
          rw [hcn]
          simp [topRowOf]

theorem load_group_canon (gs : List LiveVdev) (rows : List VdevRow)
    (hfresh : ∀ r ∈ rows, r.guid ∉ groupGuids gs)
    (hnd : (groupGuids gs).Nodup) :
    load_group rows gs = rows ++ canonGroup gs := by
  unfold load_group canonGroup
  refine load_group_aux_canon gs gs [] rows [] rfl ?_ hfresh hnd
  intro t ht
  have h0 : typeCount [] t = 0 := rfl
  rw [h0]
  simp [addedGet]

theorem canonGroupAux_guid_mem (gs : List LiveVdev) :
    ∀ (vs pre : List LiveVdev) (r : VdevRow), r ∈ canonGroupAux gs pre vs →
      r.guid ∈ groupGuids vs := by
  intro vs
  induction vs with
  | nil => intro pre r hr; cases hr
  | cons v rest ih =>
    intro pre r hr
    rw [canonGroupAux] at hr
    rw [groupGuids_cons]
    rcases List.mem_append.mp hr with h | h
    · by_cases hd : (v.type == "disk") = true
      · rw [if_pos hd] at h
        rw [List.mem_singleton.mp h]
        exact List.mem_append_left _ (List.mem_cons_self _ _)
      · rw [if_neg hd] at h
        rcases List.mem_cons.mp h with rfl | h2
        · exact List.mem_append_left _ (List.mem_cons_self _ _)
        · obtain ⟨c, hc, rfl⟩ := List.mem_map.mp h2
          exact List.mem_append_left _
            (List.mem_cons_of_mem _ (List.mem_map_of_mem _ hc))
    · exact List.mem_append_right _ (ih _ r h)

theorem load_vdevs_canon (g : LiveGroups) (hnd : (liveGuids g).Nodup) :
    load_vdevs [] g = canonLoaded g := by
  unfold liveGuids at hnd
  have h1 := List.nodup_append.mp hnd
  have h2 := List.nodup_append.mp h1.1
  have h3 := List.nodup_append.mp h2.1
  have hA := h3.1
  have hB := h3.2.1
  have hC := h2.2.1
  have hD := h1.2.1
  have hAB := h3.2.2
  have hABC := h2.2.2
  have hABCD := h1.2.2
  have guidIn : ∀ (gs : List LiveVdev) (r : VdevRow), r ∈ canonGroup gs →
      r.guid ∈ groupGuids gs := fun gs r hr => canonGroupAux_guid_mem gs gs [] r hr
  unfold load_vdevs canonLoaded
  rw [load_group_canon g.data [] (fun r hr => absurd hr (List.not_mem_nil r)) hA]
  rw [List.nil_append]
  rw [load_group_canon g.cache _ ?freshB hB]
  case freshB =>
    intro r hr hc
    exact hAB (guidIn _ r hr) hc
  rw [load_group_canon g.log _ ?freshC hC]
  case freshC =>
    intro r hr hc
    rcases List.mem_append.mp hr with h | h
    · exact hABC (List.mem_append_left _ (guidIn _ r h)) hc
    · exact hABC (List.mem_append_right _ (guidIn _ r h)) hc
  rw [load_group_canon g.spare _ ?freshD hD]
  case freshD =>
    intro r hr hc
    rcases List.mem_append.mp hr with h | h
    · rcases List.mem_append.mp h with h2 | h2
      · exact hABCD (List.mem_append_left _ (List.mem_append_left _
          (guidIn _ r h2))) hc
      · exact hABCD (List.mem_append_left _ (List.mem_append_right _
          (guidIn _ r h2))) hc
    · exact hABCD (List.mem_append_right _ (guidIn _ r h)) hc

theorem canonGroupAux_top_mem (gs : List LiveVdev) :
    ∀ (vs pre : List LiveVdev) (i : Nat) (hi : i < vs.length),
      (vs.get ⟨i, hi⟩).type ≠ "disk" →
      topRowOf (containerName gs (pre ++ vs.take i) (vs.get ⟨i, hi⟩)) (vs.get ⟨i, hi⟩)
        ∈ canonGroupAux gs pre vs := by
  intro vs
  induction vs with
  | nil => intro pre i hi; cases hi
  | cons v rest ih =>
    intro pre i hi hty
    cases i with
    | zero =>
      rw [canonGroupAux]
      have hd : (v.type == "disk") = false := by
        simp only [beq_eq_false_iff_ne, ne_eq]
        exact hty
      rw [if_neg (by simp [hd])]
      have he : pre ++ List.take 0 (v :: rest) = pre := by simp
      rw [he]
      exact List.mem_append_left _ (List.mem_cons_self _ _)
    | succ n =>
      rw [canonGroupAux]
      have he : pre ++ List.take (n + 1) (v :: rest) =
          (pre ++ [v]) ++ List.take n rest := by
        simp
      rw [he]
      exact List.mem_append_right _ (ih (pre ++ [v]) n (by simpa using hi) hty)

/-- C4: within one group (with pairwise-distinct live guids), a container
member whose type occurs exactly once is named by its bare type, and when
several members share a type each receives `type-k` where `k` is one plus
the number of earlier same-type members (1-based, in group-encounter order,
tracked per type). -/
theorem C4_naming :
    ∀ (gs : List LiveVdev) (i : Nat) (hi : i < gs.length),
      (groupGuids gs).Nodup →
      (gs.get ⟨i, hi⟩).type ≠ "disk" →
      ∃ r ∈ load_group [] gs, r.guid = (gs.get ⟨i, hi⟩).guid ∧
        r.device_name =
          (if 1 < typeCount gs (gs.get ⟨i, hi⟩).type then
            (gs.get ⟨i, hi⟩).type ++ "-" ++
              toString (typeCount (gs.take i) (gs.get ⟨i, hi⟩).type + 1)
          else (gs.get ⟨i, hi⟩).type) := by
  intro gs i hi hnd hty
  rw [load_group_canon gs [] (fun r hr => absurd hr (List.not_mem_nil r)) hnd,
    List.nil_append]
  refine ⟨topRowOf (containerName gs ([] ++ gs.take i) (gs.get ⟨i, hi⟩))
      (gs.get ⟨i, hi⟩),
    canonGroupAux_top_mem gs gs [] i hi hty, rfl, ?_⟩
  rw [List.nil_append]
  rfl

theorem C4_naming_witness :
    (∃ r ∈ load_group [] c4Group, r.guid = "d" ∧ r.device_name = "mirror-3") ∧
    (∃ r ∈ load_group [] c4Group, r.guid = "c" ∧ r.device_name = "raidz") := by
  constructor
  · have h := C4_naming c4Group 3 (by decide) (by decide) (by decide)
    exact h
  · have h := C4_naming c4Group 2 (by decide) (by decide) (by decide)
    exact h

theorem idxFrom_fst_ge (l : List VdevRow) :
    ∀ (n : Nat), ∀ q ∈ idxFrom n l, n ≤ q.1 := by
  induction l with
  | nil => intro n q hq; cases hq
  | cons a rest ih =>
    intro n q hq
    rcases List.mem_cons.mp hq with rfl | h
    · exact Nat.le_refl n
    · exact Nat.le_of_succ_le (ih (n + 1) q h)

theorem idxFrom_fst_inj (l : List VdevRow) :
    ∀ (n : Nat), ∀ q1 ∈ idxFrom n l, ∀ q2 ∈ idxFrom n l, q1.1 = q2.1 → q1 = q2 := by
  induction l with
  | nil => intro n q1 hq1; cases hq1
  | cons a rest ih =>
    intro n q1 hq1 q2 hq2 heq
    rcases List.mem_cons.mp hq1 with rfl | h1 <;>
      rcases List.mem_cons.mp hq2 with h2 | h2
    · rw [h2]
    · exfalso
      have := idxFrom_fst_ge rest (n + 1) q2 h2
      omega
    · exfalso
      have := idxFrom_fst_ge rest (n + 1) q1 h1
      rw [h2] at heq
      simp only at heq
      omega
    · exact ih (n + 1) q1 h1 q2 h2 heq

theorem idxFrom_map_fst (l : List VdevRow) :
    ∀ n : Nat, (idxFrom n l).map Prod.fst = List.range' n l.length := by
  induction l with
  | nil => intro n; rfl
  | cons a rest ih =>
    intro n
    show (n, a).1 :: (idxFrom (n + 1) rest).map Prod.fst =
      List.range' n (rest.length + 1)
    rw [List.range'_succ]
    simp [ih]

theorem idxFrom_filter_map_snd (p : VdevRow → Bool) (l : List VdevRow) :
    ∀ n : Nat,
      ((idxFrom n l).filter (fun q => p q.2)).map (fun q => q.2) = l.filter p := by
  induction l with
  | nil => intro n; rfl
  | cons a rest ih =>
    intro n
    show (((n, a) :: idxFrom (n + 1) rest).filter (fun q => p q.2)).map
        (fun q => q.2) = (a :: rest).filter p
    rw [List.filter_cons, List.filter_cons]
    by_cases hp : p a = true
    · simp only [hp, if_true]
      simp [ih]
    · simp only [Bool.not_eq_true] at hp
      simp only [hp, Bool.false_eq_true, if_false]
      exact ih (n + 1)

theorem flatMap_congr {α β : Type} (l : List α) (f g : α → List β)
    (h : ∀ x ∈ l, f x = g x) : l.flatMap f = l.flatMap g := by
  induction l with
  | nil => rfl
  | cons a rest ih =>
    rw [List.flatMap_cons, List.flatMap_cons,
      h a (List.mem_cons_self _ _),
      ih (fun x hx => h x (List.mem_cons_of_mem _ hx))]

theorem flatMap_snd {α β : Type} (l : List (Nat × α)) (f : α → List β) :
    l.flatMap (fun q => f q.2) = (l.map (fun q => q.2)).flatMap f := by
  induction l with
  | nil => rfl
  | cons a rest ih => simp [List.flatMap_cons, ih]

theorem buildOrder_eq (all : List (Nat × VdevRow)) :
    ∀ rest, buildOrder all rest =
      (rest.filter (fun q => q.2.parent_device_name == "")).flatMap
        (fun q => q :: (if q.2.type ≠ "disk" then
          all.filter (fun c => c.2.parent_device_name == q.2.device_name)
          else [])) := by
  intro rest
  induction rest with
  | nil => rfl
  | cons q rest ih =>
    rw [buildOrder, List.filter_cons]
    by_cases hp : q.2.parent_device_name ≠ ""
    · rw [if_pos hp]
      have : (q.2.parent_device_name == "") = false := by
        simp only [beq_eq_false_iff_ne, ne_eq]
        exact hp
      rw [this]
      simp only [Bool.false_eq_true, if_false]
      exact ih
    · rw [if_neg hp]
      simp only [ne_eq, Decidable.not_not] at hp
      have : (q.2.parent_device_name == "") = true := by simp [hp]
      rw [this]
      simp only [if_true]
      rw [List.flatMap_cons, ih]

theorem lastIdxOf_eq_zero (l : List Nat) (i : Nat) (h : i ∉ l) :
    lastIdxOf l i = 0 := by
  induction l with
  | nil => rfl
  | cons j rest ih =>
    rw [lastIdxOf]
    have hj : (j == i) = false := by
      simp only [beq_eq_false_iff_ne, ne_eq]
      intro hc
      exact h (hc ▸ List.mem_cons_self _ _)
    rw [ih (fun hc => h (List.mem_cons_of_mem _ hc)), hj]
    simp

theorem lastIdxOf_pos (l : List Nat) (i : Nat) (h : i ∈ l) :
    lastIdxOf l i ≠ 0 := by
  induction l with
  | nil => cases h
  | cons j rest ih =>
    simp only [lastIdxOf]
    by_cases hr : i ∈ rest
    · rw [if_pos (ih hr)]
      omega
    · have h0 : lastIdxOf rest i = 0 := lastIdxOf_eq_zero rest i hr
      rcases List.mem_cons.mp h with rfl | hmem
      · simp [h0]
      · exact absurd hmem hr

theorem map_lastIdxOf_assignIdx (P : List (Nat × VdevRow)) :
    ∀ n : Nat, (P.map Prod.fst).Nodup →
      P.map (fun q => { q.2 with idx := lastIdxOf (P.map Prod.fst) q.1 + n }) =
        assignIdxFrom n (P.map (fun q => q.2)) := by
  induction P with
  | nil => intro n _; rfl
  | cons q P ih =>
    intro n hnd
    have hnotin : q.1 ∉ P.map Prod.fst := (List.nodup_cons.mp hnd).1
    have hndtail : (P.map Prod.fst).Nodup := (List.nodup_cons.mp hnd).2
    rw [List.map_cons, List.map_cons, List.map_cons, assignIdxFrom]
    congr 1
    · simp only [lastIdxOf, lastIdxOf_eq_zero _ _ hnotin]
      simp [Nat.add_comm]
    · rw [← ih (n + 1) hndtail]
      refine List.map_congr_left ?_
      intro q2 hq2
      have hpos : lastIdxOf (P.map Prod.fst) q2.1 ≠ 0 :=
        lastIdxOf_pos _ _ (List.mem_map_of_mem _ hq2)
      simp only [lastIdxOf, if_pos hpos]
      have harith : lastIdxOf (P.map Prod.fst) q2.1 + 1 + n =
          lastIdxOf (P.map Prod.fst) q2.1 + (n + 1) := by omega
      rw [harith]

theorem fix_vdev_ordering_spec (rows : List VdevRow)
    (h1 : ∀ t ∈ tops (rows.filter (fun r => r.mapped)), t.device_name ≠ "")
    (h2 : ((tops (rows.filter (fun r => r.mapped))).map
        (fun t => t.device_name)).Nodup)
    (h3 : ∀ r ∈ rows.filter (fun r => r.mapped), r.parent_device_name ≠ "" →
        ∃ t ∈ tops (rows.filter (fun r => r.mapped)),
          t.type ≠ "disk" ∧ t.device_name = r.parent_device_name) :
    fix_vdev_ordering rows =
      assignIdx (expectedOrder (rows.filter (fun r => r.mapped))) := by
  have hsnd_top : (((idxFrom 0 (rows.filter (fun r => r.mapped))).filter
        (fun q => q.2.parent_device_name == "")).map (fun q => q.2)) =
      tops (rows.filter (fun r => r.mapped)) :=
    idxFrom_filter_map_snd (fun r => r.parent_device_name == "") _ 0
  have htopmem : ∀ q ∈ (idxFrom 0 (rows.filter (fun r => r.mapped))).filter
      (fun q => q.2.parent_device_name == ""),
      q.2 ∈ tops (rows.filter (fun r => r.mapped)) := by
    intro q hq
    rw [← hsnd_top]
    exact List.mem_map_of_mem _ hq
  have hnameinj : ∀ t1 ∈ tops (rows.filter (fun r => r.mapped)),
      ∀ t2 ∈ tops (rows.filter (fun r => r.mapped)),
      t1.device_name = t2.device_name → t1 = t2 :=
    fun t1 ht1 t2 ht2 h => List.inj_on_of_nodup_map h2 ht1 ht2 h
  have hfstinj := idxFrom_fst_inj (rows.filter (fun r => r.mapped)) 0
  have htopparent : ∀ q ∈ (idxFrom 0 (rows.filter (fun r => r.mapped))).filter
      (fun q => q.2.parent_device_name == ""), q.2.parent_device_name = "" := by
    intro q hq
    have := List.mem_filter.mp hq
    simpa using this.2
  have hchild_nil : ∀ q ∈ (idxFrom 0 (rows.filter (fun r => r.mapped))).filter
      (fun q => q.2.parent_device_name == ""), ¬ q.2.type ≠ "disk" →
      (idxFrom 0 (rows.filter (fun r => r.mapped))).filter
        (fun c => c.2.parent_device_name == q.2.device_name) = [] := by
    intro q hq hdq
    rw [List.filter_eq_nil_iff]
    intro c hc hbeq
    have hpeq : c.2.parent_device_name = q.2.device_name := by simpa using hbeq
    have hcnl := mem_idxFrom _ 0 c hc
    have hqtop := htopmem q hq
    have hpar_ne : c.2.parent_device_name ≠ "" := by
      rw [hpeq]; exact h1 q.2 hqtop
    obtain ⟨t, ht, htd, htn⟩ := h3 c.2 hcnl hpar_ne
    have : t = q.2 := hnameinj t ht q.2 hqtop (by rw [htn, hpeq])
    rw [this] at htd
    exact htd (by simpa using hdq)
  have hord : buildOrder (idxFrom 0 (rows.filter (fun r => r.mapped)))
      (idxFrom 0 (rows.filter (fun r => r.mapped))) =
      ((idxFrom 0 (rows.filter (fun r => r.mapped))).filter
        (fun q => q.2.parent_device_name == "")).flatMap
        (fun q => q :: (idxFrom 0 (rows.filter (fun r => r.mapped))).filter
          (fun c => c.2.parent_device_name == q.2.device_name)) := by
    rw [buildOrder_eq]
    refine flatMap_congr _ _ _ ?_
    intro q hq
    by_cases hdq : q.2.type ≠ "disk"
    · rw [if_pos hdq]
    · rw [if_neg hdq, hchild_nil q hq hdq]
  have hAnodup : ((idxFrom 0 (rows.filter (fun r => r.mapped))).map
      Prod.fst).Nodup := by
    rw [idxFrom_map_fst]
    exact List.nodup_range' _ _
  have hchildsub : ∀ q : Nat × VdevRow,
      (((idxFrom 0 (rows.filter (fun r => r.mapped))).filter
        (fun c => c.2.parent_device_name == q.2.device_name)).map Prod.fst).Nodup :=
    fun q => hAnodup.sublist ((List.filter_sublist _).map Prod.fst)
  have htop_notin_child : ∀ qa ∈ (idxFrom 0 (rows.filter (fun r => r.mapped))).filter
      (fun q => q.2.parent_device_name == ""),
      ∀ qb ∈ (idxFrom 0 (rows.filter (fun r => r.mapped))).filter
      (fun q => q.2.parent_device_name == ""),
      qa.1 ∉ ((idxFrom 0 (rows.filter (fun r => r.mapped))).filter
        (fun c => c.2.parent_device_name == qb.2.device_name)).map Prod.fst := by
    intro qa hqa qb hqb hmem
    obtain ⟨c, hc, hceq⟩ := List.mem_map.mp hmem
    have hcA := List.mem_of_mem_filter hc
    have hqaA := List.mem_of_mem_filter hqa
    have : c = qa := hfstinj c hcA qa hqaA hceq
    subst this
    have hcb := List.mem_filter.mp hc
    have hpeq : c.2.parent_device_name = qb.2.device_name := by simpa using hcb.2
    have := htopparent c hqa
    rw [this] at hpeq
    exact h1 qb.2 (htopmem qb hqb) hpeq.symm
  have hfsts_nodup : ((buildOrder (idxFrom 0 (rows.filter (fun r => r.mapped)))
      (idxFrom 0 (rows.filter (fun r => r.mapped)))).map Prod.fst).Nodup := by
    rw [hord, List.map_flatMap]
    apply List.nodup_flatMap.mpr
    constructor
    · intro q hq
      rw [List.map_cons]
      refine List.nodup_cons.mpr ⟨htop_notin_child q hq q hq, hchildsub q⟩
    · have hp1 : ((idxFrom 0 (rows.filter (fun r => r.mapped))).filter
          (fun q => q.2.parent_device_name == "")).Pairwise
          (fun a b => a.1 ≠ b.1) := by
        refine List.pairwise_map.mp ?_
        exact hAnodup.sublist ((List.filter_sublist _).map Prod.fst)
      have hp2 : ((idxFrom 0 (rows.filter (fun r => r.mapped))).filter
          (fun q => q.2.parent_device_name == "")).Pairwise
          (fun a b => a.2.device_name ≠ b.2.device_name) := by
        refine List.pairwise_map.mp ?_
        have : (((idxFrom 0 (rows.filter (fun r => r.mapped))).filter
            (fun q => q.2.parent_device_name == "")).map
            (fun q => q.2.device_name)) =
            ((tops (rows.filter (fun r => r.mapped))).map
              (fun t => t.device_name)) := by
          rw [← hsnd_top, List.map_map]
          rfl
        rw [this]
        exact h2
      refine List.Pairwise.imp ?_ (List.Pairwise.and_mem.mp (hp1.and hp2))
      intro a b hab
      obtain ⟨ha, hb, habne⟩ := hab
      intro x hxa hxb
      rcases List.mem_cons.mp hxa with rfl | hxa' <;>
        rcases List.mem_cons.mp hxb with hxb' | hxb'
      · exact habne.1 hxb'
      · exact htop_notin_child a ha b hb hxb'
      · rw [hxb'] at hxa'
        exact htop_notin_child b hb a ha hxa'
      · obtain ⟨c, hc, hceq⟩ := List.mem_map.mp hxa'
        obtain ⟨c2, hc2, hc2eq⟩ := List.mem_map.mp hxb'
        have : c = c2 := hfstinj c (List.mem_of_mem_filter hc) c2
          (List.mem_of_mem_filter hc2) (by rw [hceq, hc2eq])
        subst this
        have hpa : c.2.parent_device_name = a.2.device_name := by
          simpa using (List.mem_filter.mp hc).2
        have hpb : c.2.parent_device_name = b.2.device_name := by
          simpa using (List.mem_filter.mp hc2).2
        exact habne.2 (by rw [← hpa, ← hpb])
  have hmapsnd : (buildOrder (idxFrom 0 (rows.filter (fun r => r.mapped)))
      (idxFrom 0 (rows.filter (fun r => r.mapped)))).map (fun q => q.2) =
      expectedOrder (rows.filter (fun r => r.mapped)) := by
    rw [hord, List.map_flatMap]
    have hblocks : ∀ q ∈ ((idxFrom 0 (rows.filter (fun r => r.mapped))).filter
        (fun q => q.2.parent_device_name == "")),
        ((q :: (idxFrom 0 (rows.filter (fun r => r.mapped))).filter
          (fun c => c.2.parent_device_name == q.2.device_name)).map
            (fun q => q.2)) =
        (fun t => t :: childrenOf (rows.filter (fun r => r.mapped)) t.device_name)
          q.2 := by
      intro q hq
      rw [List.map_cons]
      congr 1
      exact idxFrom_filter_map_snd
        (fun r => r.parent_device_name == q.2.device_name) _ 0
    rw [flatMap_congr _ _ _ hblocks]
    rw [flatMap_snd _
      (fun t => t :: childrenOf (rows.filter (fun r => r.mapped)) t.device_name)]
    rw [hsnd_top]
    rfl
  have hfix : fix_vdev_ordering rows =
      assignIdxFrom 0 ((buildOrder (idxFrom 0 (rows.filter (fun r => r.mapped)))
        (idxFrom 0 (rows.filter (fun r => r.mapped)))).map (fun q => q.2)) :=
    map_lastIdxOf_assignIdx _ 0 hfsts_nodup
  rw [hmapsnd] at hfix
  exact hfix

theorem assignIdxFrom_map_idx (l : List VdevRow) :
    ∀ n : Nat, (assignIdxFrom n l).map (fun r => r.idx) =
      List.range' (n + 1) l.length := by
  induction l with
  | nil => intro n; rfl
  | cons a rest ih =>
    intro n
    show (n + 1) :: (assignIdxFrom (n + 1) rest).map (fun r => r.idx) =
      List.range' (n + 1) (rest.length + 1)
    rw [List.range'_succ, ih]

/-- C5 counterexample: with two top-level rows both named `"mirror"` and a
child row naming `"mirror"` as parent, the reorder loop appends the child
once under each header and the in-place `idx` assignment leaves both output
slots holding the child's later position, so the output `idx` values are
`[1, 4, 3, 4]`, not the contiguous `1..n` the claim states. -/
theorem C5_cex :
    ¬ ((fix_vdev_ordering c5Rows).map (fun r => r.idx) =
        List.range' 1 (fix_vdev_ordering c5Rows).length) ∧
    (fix_vdev_ordering c5Rows).map (fun r => r.idx) = [1, 4, 3, 4] := by
  constructor
  · decide
  · rfl

/-- C5 (amended): for a mapped row set whose top-level rows carry nonempty,
pairwise-distinct device names and whose every child row names a non-disk
top-level row as parent, the orderer output is exactly each top-level row
immediately followed by all rows whose `parent_device_name` equals its
`device_name` (before any other top-level row), and the assigned `idx`
values are exactly the contiguous integers `1, ..., n` in output order. -/
theorem C5_ordering (rows : List VdevRow)
    (h1 : ∀ t ∈ tops (rows.filter (fun r => r.mapped)), t.device_name ≠ "")
    (h2 : ((tops (rows.filter (fun r => r.mapped))).map
        (fun t => t.device_name)).Nodup)
    (h3 : ∀ r ∈ rows.filter (fun r => r.mapped), r.parent_device_name ≠ "" →
        ∃ t ∈ tops (rows.filter (fun r => r.mapped)),
          t.type ≠ "disk" ∧ t.device_name = r.parent_device_name) :
    fix_vdev_ordering rows =
      assignIdx (expectedOrder (rows.filter (fun r => r.mapped)))
    ∧ (fix_vdev_ordering rows).map (fun r => r.idx) =
      List.range' 1 (fix_vdev_ordering rows).length := by
  have h := fix_vdev_ordering_spec rows h1 h2 h3
  refine ⟨h, ?_⟩
  rw [h]
  unfold assignIdx
  rw [assignIdxFrom_map_idx]
  congr 1
  have hlen : ∀ (l : List VdevRow) (n : Nat),
      (assignIdxFrom n l).length = l.length := by
    intro l
    induction l with
    | nil => intro n; rfl
    | cons a rest ih => intro n; simp [assignIdxFrom, ih]
  rw [hlen]

theorem C5_ordering_witness :
    fix_vdev_ordering c5WitnessRows =
      assignIdx (expectedOrder (c5WitnessRows.filter (fun r => r.mapped))) :=
  (C5_ordering c5WitnessRows (by decide) (by decide) (by decide)).1

/-- C2 counterexample: starting from `c2Rows` (a stale parent reference on
a live guid), one full sync persists no vdev rows at all, while a second
full sync over the unchanged live state recreates the row — so sync twice
differs from sync once. -/
theorem C2_cex :
    full_sync_state c2Groups c2Root [] [] "tank"
        (full_sync_state c2Groups c2Root [] [] "tank" (c2Rows, [])) ≠
      full_sync_state c2Groups c2Root [] [] "tank" (c2Rows, []) ∧
    (full_sync_state c2Groups c2Root [] [] "tank" (c2Rows, [])).1 = [] := by
  constructor
  · decide
  · rfl

theorem sync_one_dataset_establishes (S : List DatasetRec) (self : String)
    (d : LiveDataset) :
    ∀ x ∈ sync_one_dataset S self d, x.name = d.name →
      x.props = d.props ∧ x.zfs_pool = self := by
  intro x hx hxn
  unfold sync_one_dataset at hx
  by_cases hany : (S.any (fun r => r.name == d.name)) = true
  · rw [if_pos hany] at hx
    obtain ⟨s, _, hsx⟩ := List.mem_map.mp hx
    by_cases hsd : (s.name == d.name) = true
    · rw [if_pos hsd] at hsx
      rw [← hsx]
      exact ⟨rfl, rfl⟩
    · rw [if_neg hsd] at hsx
      subst hsx
      exact absurd (by simp [hxn]) hsd
  · rw [if_neg hany] at hx
    rcases List.mem_append.mp hx with h | h
    · exfalso
      rw [List.any_eq_true] at hany
      exact hany ⟨x, h, by simp [hxn]⟩
    · rw [List.mem_singleton.mp h]
      exact ⟨rfl, rfl⟩

theorem sync_one_dataset_preserves_named (S : List DatasetRec) (self : String)
    (d : LiveDataset) (n : String) (hne : d.name ≠ n)
    (Q : DatasetRec → Prop)
    (h : ∀ x ∈ S, x.name = n → Q x) :
    ∀ x ∈ sync_one_dataset S self d, x.name = n → Q x := by
  intro x hx hxn
  unfold sync_one_dataset at hx
  by_cases hany : (S.any (fun r => r.name == d.name)) = true
  · rw [if_pos hany] at hx
    obtain ⟨s, hs, hsx⟩ := List.mem_map.mp hx
    by_cases hsd : (s.name == d.name) = true
    · exfalso
      rw [if_pos hsd] at hsx
      apply hne
      rw [← hxn, ← hsx]
      exact (eq_of_beq hsd).symm ▸ rfl
    · rw [if_neg hsd] at hsx
      subst hsx
      exact h s hs hxn
  · rw [if_neg hany] at hx
    rcases List.mem_append.mp hx with hmem | hmem
    · exact h x hmem hxn
    · exfalso
      rw [List.mem_singleton.mp hmem] at hxn
      exact hne hxn

theorem sync_dataset_list_preserves_named (self : String) (n : String)
    (Q : DatasetRec → Prop) :
    ∀ (ds : List LiveDataset), (∀ d ∈ ds, d.name ≠ n) →
    ∀ (S : List DatasetRec), (∀ x ∈ S, x.name = n → Q x) →
    ∀ x ∈ sync_dataset_list S self ds, x.name = n → Q x := by
  intro ds
  induction ds with
  | nil => intro _ S h; exact h
  | cons d rest ih =>
    intro hne S h
    exact ih (fun d' hd' => hne d' (List.mem_cons_of_mem _ hd'))
      _ (sync_one_dataset_preserves_named S self d n
          (hne d (List.mem_cons_self _ _)) Q h)

theorem sync_dataset_list_establishes (self : String) :
    ∀ (ds : List LiveDataset) (d : LiveDataset), d ∈ ds →
    (ds.map (fun x => x.name)).Nodup →
    ∀ (S : List DatasetRec),
    ∀ x ∈ sync_dataset_list S self ds, x.name = d.name →
      x.props = d.props ∧ x.zfs_pool = self := by
  intro ds
  induction ds with
  | nil => intro d hd; cases hd
  | cons a rest ih =>
    intro d hd hnd S x hx hxn
    have hndtail : (rest.map (fun x => x.name)).Nodup :=
      (List.nodup_cons.mp (by simpa using hnd)).2
    have hanotin : a.name ∉ rest.map (fun x => x.name) :=
      (List.nodup_cons.mp (by simpa using hnd)).1
    rcases List.mem_cons.mp hd with rfl | hd'
    · refine sync_dataset_list_preserves_named self d.name
        (fun x => x.props = d.props ∧ x.zfs_pool = self)
        rest ?_ _ ?_ x hx hxn
      · intro d' hd' hc
        exact hanotin (hc ▸ List.mem_map_of_mem _ hd')
      · exact sync_one_dataset_establishes S self d
    · exact ih d hd' hndtail _ x hx hxn

theorem datasetrec_eta (r : DatasetRec) (p : List (String × String)) (z : String)
    (hp : r.props = p) (hz : r.zfs_pool = z) :
    { r with props := p, zfs_pool := z } = r := by
  cases r
  simp_all

theorem sync_one_dataset_noop (S : List DatasetRec) (self : String)
    (d : LiveDataset) (hex : ∃ x ∈ S, x.name = d.name)
    (hcan : ∀ x ∈ S, x.name = d.name → x.props = d.props ∧ x.zfs_pool = self) :
    sync_one_dataset S self d = S := by
  unfold sync_one_dataset
  obtain ⟨x0, hx0, hx0n⟩ := hex
  rw [if_pos (List.any_eq_true.mpr ⟨x0, hx0, by simp [hx0n]⟩)]
  have : ∀ r ∈ S, (if r.name == d.name then
      { r with props := d.props, zfs_pool := self } else r) = r := by
    intro r hr
    by_cases hrd : (r.name == d.name) = true
    · rw [if_pos hrd]
      obtain ⟨hp, hz⟩ := hcan r hr (by simpa using hrd)
      exact datasetrec_eta r d.props self hp hz
    · rw [if_neg hrd]
  calc S.map (fun r => if r.name == d.name then
        { r with props := d.props, zfs_pool := self } else r)
      = S.map id := List.map_congr_left (fun r hr => this r hr)
    _ = S := List.map_id S

theorem sync_dataset_list_noop (self : String) :
    ∀ (ds : List LiveDataset) (S : List DatasetRec),
    (∀ d ∈ ds, (∃ x ∈ S, x.name = d.name) ∧
      (∀ x ∈ S, x.name = d.name → x.props = d.props ∧ x.zfs_pool = self)) →
    sync_dataset_list S self ds = S := by
  intro ds
  induction ds with
  | nil => intro S _; rfl
  | cons d rest ih =>
    intro S h
    rw [sync_dataset_list,
      sync_one_dataset_noop S self d (h d (List.mem_cons_self _ _)).1
        (h d (List.mem_cons_self _ _)).2]
    exact ih S (fun d' hd' => h d' (List.mem_cons_of_mem _ hd'))

theorem sync_datasets_mem_self (records : List DatasetRec) (self : String)
    (root : LiveDataset) (children snaps : List LiveDataset) (n : String)
    (hn : n = root.name ∨ (∃ d ∈ children, n = d.name) ∨
      (∃ d ∈ snaps, n = d.name)) :
    ∃ r ∈ sync_datasets records self root children snaps,
      r.name = n ∧ r.zfs_pool = self := by
  have hex : ∃ r ∈ sync_dataset_list
      (sync_dataset_list (sync_one_dataset records self root) self children)
      self snaps, r.name = n ∧ r.zfs_pool = self := by
    rcases hn with rfl | ⟨d, hd, rfl⟩ | ⟨d, hd, rfl⟩
    · exact sync_dataset_list_preserves self snaps _ _
        (sync_dataset_list_preserves self children _ _
          (sync_one_dataset_mem_self records self root))
    · exact sync_dataset_list_preserves self snaps _ _
        (sync_dataset_list_mem_self self children d hd _)
    · exact sync_dataset_list_mem_self self snaps d hd _
  obtain ⟨r, hr, hname, hpool⟩ := hex
  refine ⟨r, ?_, hname, hpool⟩
  unfold sync_datasets
  refine List.mem_filter.mpr ⟨hr, ?_⟩
  have hcont : (seenNames root children snaps).contains r.name = true := by
    rw [hname]
    have hmem : n ∈ seenNames root children snaps := by
      unfold seenNames
      rcases hn with rfl | ⟨d, hd, rfl⟩ | ⟨d, hd, rfl⟩
      · exact List.mem_cons_self _ _
      · exact List.mem_cons_of_mem _ (List.mem_cons_of_mem _
          (List.mem_append_left _ (List.mem_map_of_mem _ hd)))
      · exact List.mem_cons_of_mem _ (List.mem_cons_of_mem _
          (List.mem_append_right _ (List.mem_map_of_mem _ hd)))
    simpa using hmem
  simp only [Bool.not_eq_true', Bool.and_eq_false_iff, Bool.not_eq_true,
    Bool.not_eq_false]
  right
  simpa using hcont

theorem sync_datasets_canonical (records : List DatasetRec) (self : String)
    (root : LiveDataset) (children snaps : List LiveDataset)
    (hds : (root.name :: (children.map (fun d => d.name) ++
      snaps.map (fun d => d.name))).Nodup) :
    ∀ x ∈ sync_datasets records self root children snaps,
      (x.name = root.name → x.props = root.props ∧ x.zfs_pool = self) ∧
      (∀ d ∈ children, x.name = d.name → x.props = d.props ∧ x.zfs_pool = self) ∧
      (∀ d ∈ snaps, x.name = d.name → x.props = d.props ∧ x.zfs_pool = self) := by
  have hparts := List.nodup_cons.mp hds
  have hrootch : ∀ d ∈ children, d.name ≠ root.name := by
    intro d hd hc
    exact hparts.1 (List.mem_append_left _ (hc ▸ List.mem_map_of_mem _ hd))
  have hrootsn : ∀ d ∈ snaps, d.name ≠ root.name := by
    intro d hd hc
    exact hparts.1 (List.mem_append_right _ (hc ▸ List.mem_map_of_mem _ hd))
  have happ := List.nodup_append.mp hparts.2
  intro x hx
  have hx' : x ∈ sync_dataset_list
      (sync_dataset_list (sync_one_dataset records self root) self children)
      self snaps := by
    unfold sync_datasets at hx
    exact (List.mem_filter.mp hx).1
  refine ⟨?_, ?_, ?_⟩
  · intro hxn
    refine sync_dataset_list_preserves_named self root.name
      (fun y => y.props = root.props ∧ y.zfs_pool = self)
      snaps hrootsn _ ?_ x hx' hxn
    refine sync_dataset_list_preserves_named self root.name
      (fun y => y.props = root.props ∧ y.zfs_pool = self)
      children hrootch _ ?_
    exact sync_one_dataset_establishes records self root
  · intro d hd hxn
    refine sync_dataset_list_preserves_named self d.name
      (fun y => y.props = d.props ∧ y.zfs_pool = self)
      snaps ?_ _ ?_ x hx' hxn
    · intro d' hd' hc
      exact happ.2.2 (List.mem_map_of_mem _ hd) (hc ▸ List.mem_map_of_mem _ hd')
    · exact sync_dataset_list_establishes self children d hd happ.1 _
  · intro d hd hxn
    exact sync_dataset_list_establishes self snaps d hd happ.2.1 _ x hx' hxn

theorem sync_datasets_idem (records : List DatasetRec) (self : String)
    (root : LiveDataset) (children snaps : List LiveDataset)
    (hds : (root.name :: (children.map (fun d => d.name) ++
      snaps.map (fun d => d.name))).Nodup) :
    sync_datasets (sync_datasets records self root children snaps)
        self root children snaps =
      sync_datasets records self root children snaps := by
  have hcan := sync_datasets_canonical records self root children snaps hds
  have hroot_noop : sync_one_dataset
      (sync_datasets records self root children snaps) self root =
      sync_datasets records self root children snaps := by
    refine sync_one_dataset_noop _ self root ?_ ?_
    · obtain ⟨r, hr, hn, _⟩ :=
        sync_datasets_mem_self records self root children snaps root.name
          (Or.inl rfl)
      exact ⟨r, hr, hn⟩
    · exact fun x hx hxn => (hcan x hx).1 hxn
  have hch_noop : sync_dataset_list
      (sync_datasets records self root children snaps) self children =
      sync_datasets records self root children snaps := by
    refine sync_dataset_list_noop self children _ ?_
    intro d hd
    constructor
    · obtain ⟨r, hr, hn, _⟩ :=
        sync_datasets_mem_self records self root children snaps d.name
          (Or.inr (Or.inl ⟨d, hd, rfl⟩))
      exact ⟨r, hr, hn⟩
    · exact fun x hx hxn => (hcan x hx).2.1 d hd hxn
  have hsn_noop : sync_dataset_list
      (sync_datasets records self root children snaps) self snaps =
      sync_datasets records self root children snaps := by
    refine sync_dataset_list_noop self snaps _ ?_
    intro d hd
    constructor
    · obtain ⟨r, hr, hn, _⟩ :=
        sync_datasets_mem_self records self root children snaps d.name
          (Or.inr (Or.inr ⟨d, hd, rfl⟩))
      exact ⟨r, hr, hn⟩
    · exact fun x hx hxn => (hcan x hx).2.2 d hd hxn
  conv_lhs => rw [sync_datasets]
  rw [hroot_noop, hch_noop, hsn_noop]
  refine List.filter_eq_self.mpr ?_
  intro x hx
  have hx2 : x ∈ List.filter (fun r => !(r.zfs_pool == self &&
      !(seenNames root children snaps).contains r.name))
      (sync_dataset_list (sync_dataset_list (sync_one_dataset records self root)
        self children) self snaps) := hx
  exact (List.mem_filter.mp hx2).2

theorem maskExcept_nil (R : List VdevRow) : maskExcept R [] = reset_mapped R := by
  unfold maskExcept reset_mapped
  refine List.map_congr_left ?_
  intro r _
  rfl

theorem maskExcept_all (R : List VdevRow) (P : List String)
    (h : ∀ r ∈ R, r.guid ∈ P) : maskExcept R P = R := by
  unfold maskExcept
  have : ∀ r ∈ R, (if P.contains r.guid then r else { r with mapped := false }) = r := by
    intro r hr
    rw [if_pos (by simpa using h r hr)]
  calc R.map _ = R.map id := List.map_congr_left this
    _ = R := List.map_id R
theorem findIdx?_maskExcept (R : List VdevRow) (P : List String) (g : String) :
    List.findIdx? (fun x => x.guid == g) (maskExcept R P) =
      List.findIdx? (fun x => x.guid == g) R := by
  unfold maskExcept
  rw [List.findIdx?_map _ R]
  congr 1
  funext r
  show ((if P.contains r.guid then r else { r with mapped := false }).guid == g) =
    (r.guid == g)
  by_cases h : (P.contains r.guid) = true
  · rw [if_pos h]
  · rw [if_neg h]

theorem findIdx?_unique_row (R : List VdevRow)
    (hRnd : (R.map (fun r => r.guid)).Nodup) (r : VdevRow) (g : String)
    (hr : r ∈ R) (hg : r.guid = g) :
    ∃ i, R.get? i = some r ∧
      List.findIdx? (fun x => x.guid == g) R = some i := by
  induction R with
  | nil => cases hr
  | cons a rest ih =>
    have hndtail : (rest.map (fun r => r.guid)).Nodup :=
      (List.nodup_cons.mp (by simpa using hRnd)).2
    have hanotin : a.guid ∉ rest.map (fun r => r.guid) :=
      (List.nodup_cons.mp (by simpa using hRnd)).1
    by_cases ha : (a.guid == g) = true
    · have hag : a.guid = g := by simpa using ha
      have har : r = a := by
        rcases List.mem_cons.mp hr with rfl | hmem
        · rfl
        · exfalso
          exact hanotin (hag ▸ hg ▸ List.mem_map_of_mem _ hmem)
      subst har
      exact ⟨0, rfl, by simp [List.findIdx?, ha]⟩
    · have hrr : r ∈ rest := by
        rcases List.mem_cons.mp hr with rfl | hmem
        · exact absurd (by simp [hg]) ha
        · exact hmem
      obtain ⟨i, hget, hfind⟩ := ih hndtail hrr
      refine ⟨i + 1, by simpa using hget, ?_⟩
      rw [List.findIdx?_cons]
      simp only [ha, Bool.false_eq_true, if_false]
      rw [List.findIdx?_succ, hfind]
      rfl

theorem contains_append (l1 l2 : List String) (x : String) :
    (l1 ++ l2).contains x = (l1.contains x || l2.contains x) := by
  simp [Bool.or_assoc]

theorem listModify_id {α : Type} (f : α → α) :
    ∀ (l : List α) (i : Nat) (x : α), l.get? i = some x → f x = x →
    listModify l i f = l := by
  intro l
  induction l with
  | nil => intro i x h; cases h
  | cons a rest ih =>
    intro i x h hfx
    cases i with
    | zero =>
      have : a = x := by simpa using h
      subst this
      simp [listModify, hfx]
    | succ n =>
      simp only [listModify]
      rw [ih n x (by simpa using h) hfx]

theorem maskExcept_get? (R : List VdevRow) (P : List String) (i : Nat) :
    (maskExcept R P).get? i = (R.get? i).map
      (fun r => if P.contains r.guid then r else { r with mapped := false }) := by
  unfold maskExcept
  simp [List.get?_eq_getElem?, List.getElem?_map]

theorem maskExcept_congr (R : List VdevRow) (P Q : List String)
    (h : ∀ r ∈ R, (P.contains r.guid) = (Q.contains r.guid)) :
    maskExcept R P = maskExcept R Q := by
  unfold maskExcept
  refine List.map_congr_left ?_
  intro r hr
  rw [h r hr]

theorem mask_update (R : List VdevRow) (P : List String) (g : String)
    (r : VdevRow) (f : VdevRow → VdevRow) :
    ∀ (i : Nat), (R.map (fun x => x.guid)).Nodup → R.get? i = some r →
    r.guid = g → g ∉ P → f { r with mapped := false } = r →
    listModify (maskExcept R P) i f = maskExcept R (P ++ [g]) := by
  induction R with
  | nil => intro i _ h; cases h
  | cons a rest ih =>
    intro i hnd hget hg hP hf
    have hndtail : (rest.map (fun x => x.guid)).Nodup :=
      (List.nodup_cons.mp (by simpa using hnd)).2
    have hanotin : a.guid ∉ rest.map (fun x => x.guid) :=
      (List.nodup_cons.mp (by simpa using hnd)).1
    cases i with
    | zero =>
      have : a = r := by simpa using hget
      subst this
      show f (if P.contains a.guid then a else { a with mapped := false }) ::
          maskExcept rest P =
        (if (P ++ [g]).contains a.guid then a else { a with mapped := false }) ::
          maskExcept rest (P ++ [g])
      have hPc : (P.contains a.guid) = false := by
        rw [hg]
        simpa using hP
      have hPg : ((P ++ [g]).contains a.guid) = true := by
        rw [hg]
        simp
      rw [hPc]
      simp only [Bool.false_eq_true, if_false]
      rw [hPg]
      simp only [if_true]
      rw [hf]
      congr 1
      refine maskExcept_congr rest P (P ++ [g]) ?_
      intro x hx
      have hxg : x.guid ≠ g := by
        intro hc
        exact hanotin (hg ▸ hc ▸ List.mem_map_of_mem _ hx)
      by_cases hxP : (P.contains x.guid) = true
      · rw [hxP]
        symm
        simp only [contains_append, hxP, Bool.true_or]
      · simp only [Bool.not_eq_true] at hxP
        rw [hxP]
        symm
        simp only [contains_append, hxP, Bool.false_or]
        simpa using hxg
    | succ n =>
      have hget' : rest.get? n = some r := by simpa using hget
      have hag : a.guid ≠ g := by
        intro hc
        have : r ∈ rest := by
          have := List.get?_eq_some.mp hget'
          obtain ⟨hlt, hgeteq⟩ := this
          exact hgeteq ▸ rest.get_mem _ _
        exact hanotin (hc ▸ hg ▸ List.mem_map_of_mem _ this)
      show (if P.contains a.guid then a else { a with mapped := false }) ::
          listModify (maskExcept rest P) n f =
        (if (P ++ [g]).contains a.guid then a else { a with mapped := false }) ::
          maskExcept rest (P ++ [g])
      rw [ih n hndtail hget' hg hP hf]
      congr 2
      simp only [contains_append]
      have : ([g].contains a.guid) = false := by
        simp only [List.contains_cons, List.contains_nil, Bool.or_false,
          beq_eq_false_iff_ne, ne_eq]
        exact hag
      rw [this]
      simp

theorem load_children_pass2 (R : List VdevRow)
    (hRnd : (R.map (fun r => r.guid)).Nodup) (p : Nat) (pr : VdevRow) :
    ∀ (cs : List LiveChild) (P : List String),
    R.get? p = some pr → pr.guid ∈ P →
    (cs.map (fun c => c.guid)).Nodup →
    (∀ c ∈ cs, c.guid ∉ P) →
    (∀ c ∈ cs, ∃ r ∈ R, ∃ k : Nat,
      r = { childRowOf pr.type pr.device_name c with idx := k }) →
    load_children (maskExcept R P) p cs =
      maskExcept R (P ++ cs.map (fun c => c.guid)) := by
  intro cs
  induction cs with
  | nil =>
    intro P _ _ _ _ _
    simp [load_children]
  | cons c cs ih =>
    intro P hp hprP hnd hPfr hsurj
    have hparts : (∀ x ∈ cs, ¬x.guid = c.guid) ∧
        (List.map (fun c => c.guid) cs).Nodup := by simpa using hnd
    obtain ⟨rc, hrcR, k, hrceq⟩ := hsurj c (List.mem_cons_self _ _)
    subst hrceq
    obtain ⟨ic, hget, hfind⟩ := findIdx?_unique_row R hRnd _ c.guid hrcR rfl
    have hfound : get_vdev_row_idx (maskExcept R P) c.guid = some ic := by
      unfold get_vdev_row_idx
      rw [findIdx?_maskExcept, hfind]
    have hcP : c.guid ∉ P := hPfr c (List.mem_cons_self _ _)
    have hadd : add_vdev (maskExcept R P) c.guid c.type c.status 0 true =
        (maskExcept R (P ++ [c.guid]), ic) := by
      unfold add_vdev
      rw [hfound]
      simp only
      rw [mask_update R P c.guid _ _ ic hRnd hget rfl hcP rfl]
    have hcontains_pr : ((P ++ [c.guid]).contains pr.guid) = true := by
      rw [contains_append]
      have : (P.contains pr.guid) = true := by simpa using hprP
      rw [this]
      rfl
    have hget_p : (maskExcept R (P ++ [c.guid])).get? p = some pr := by
      rw [maskExcept_get?, hp]
      simp only [Option.map_some']
      rw [if_pos hcontains_pr]
    have hcontains_c : ((P ++ [c.guid]).contains c.guid) = true := by
      rw [contains_append]
      simp
    have hget_c : (maskExcept R (P ++ [c.guid])).get? ic =
        some { childRowOf pr.type pr.device_name c with idx := k } := by
      rw [maskExcept_get?, hget]
      simp only [Option.map_some']
      have hproj : ({ childRowOf pr.type pr.device_name c with idx := k }).guid =
          c.guid := rfl
      rw [hproj, if_pos hcontains_c]
    simp only [load_children, hadd]
    rw [hget_p]
    simp only [Option.map_some', Option.getD_some]
    rw [listModify_id _ _ _ _ hget_c rfl]
    rw [listModify_id _ _ _ _ hget_c rfl]
    rw [hget_p]
    simp only [Option.map_some', Option.getD_some]
    rw [listModify_id _ _ _ _ hget_c rfl]
    rw [ih (P ++ [c.guid]) hp (List.mem_append_left _ hprP)
      hparts.2 ?hfr2 ?hsurj2]
    case hfr2 =>
      intro c2 hc2 hmem
      rcases List.mem_append.mp hmem with h | h
      · exact hPfr c2 (List.mem_cons_of_mem _ hc2) h
      · have hc2g : c2.guid = c.guid := by simpa using h
        exact hparts.1 c2 hc2 hc2g
    case hsurj2 =>
      exact fun c2 hc2 => hsurj c2 (List.mem_cons_of_mem _ hc2)
    rw [List.append_assoc]
    rfl

theorem addedGet_getD_eq (gs pre rest : List LiveVdev) (v : LiveVdev)
    (added : List (String × Nat)) (hgs : gs = pre ++ v :: rest)
    (hadded : ∀ t, t ≠ "disk" → addedGet added t =
      if 1 < typeCount gs t ∧ 1 ≤ typeCount pre t then some (typeCount pre t + 1)
      else none)
    (hnotdisk : v.type ≠ "disk") :
    (addedGet added v.type).getD 1 = typeCount pre v.type + 1 := by
  rw [hadded v.type hnotdisk]
  by_cases hpre : 1 ≤ typeCount pre v.type
  · by_cases hgl : 1 < typeCount gs v.type
    · rw [if_pos ⟨hgl, hpre⟩]; rfl
    · rw [if_neg (fun hc => hgl hc.1)]
      exfalso
      have hvgs : v ∈ gs := by
        rw [hgs]; exact List.mem_append_right _ (List.mem_cons_self _ _)
      have h1 : 1 ≤ typeCount gs v.type := by
        unfold typeCount
        have : v ∈ gs.filter (fun w => w.type == v.type) :=
          List.mem_filter.mpr ⟨hvgs, by simp⟩
        exact List.length_pos.mpr (fun hemp => by simp [hemp] at this)
      have h2 : typeCount pre v.type + typeCount [v] v.type +
          typeCount rest v.type = typeCount gs v.type := by
        unfold typeCount
        rw [hgs]
        simp only [List.filter_append, List.length_append]
        simp [List.filter_cons]
        omega
      have h3 : typeCount [v] v.type = 1 := by
        unfold typeCount
        simp
      omega
  · rw [if_neg (fun hc => hpre hc.2)]
    have : typeCount pre v.type = 0 := by omega
    rw [this]
    rfl

theorem mGG_cons (v : LiveVdev) (rest : List LiveVdev) :
    mappedGroupGuids (v :: rest) =
      (v.guid :: (if v.type == "disk" then [] else
        v.children.map (fun c => c.guid))) ++ mappedGroupGuids rest := by
  unfold mappedGroupGuids
  simp [List.flatMap_cons]

theorem mem_mGG_groupGuids (vs : List LiveVdev) (x : String)
    (h : x ∈ mappedGroupGuids vs) : x ∈ groupGuids vs := by
  unfold mappedGroupGuids at h
  unfold groupGuids
  obtain ⟨v, hv, hx⟩ := List.mem_flatMap.mp h
  refine List.mem_flatMap.mpr ⟨v, hv, ?_⟩
  rcases List.mem_cons.mp hx with rfl | hx2
  · exact List.mem_cons_self _ _
  · by_cases hd : (v.type == "disk") = true
    · rw [if_pos hd] at hx2
      cases hx2
    · rw [if_neg hd] at hx2
      exact List.mem_cons_of_mem _ hx2

theorem load_group_aux_pass2 (R : List VdevRow)
    (hRnd : (R.map (fun r => r.guid)).Nodup) (gs : List LiveVdev) :
    ∀ (vs pre : List LiveVdev) (added : List (String × Nat)) (P : List String),
    gs = pre ++ vs →
    (∀ t, t ≠ "disk" → addedGet added t =
      if 1 < typeCount gs t ∧ 1 ≤ typeCount pre t then some (typeCount pre t + 1)
      else none) →
    (groupGuids vs).Nodup →
    (∀ x ∈ mappedGroupGuids vs, x ∉ P) →
    (∀ c ∈ canonGroupAux gs pre vs, ∃ r ∈ R, ∃ k : Nat, r = { c with idx := k }) →
    load_group_aux gs (maskExcept R P) added vs =
      maskExcept R (P ++ mappedGroupGuids vs) := by
  intro vs
  induction vs with
  | nil =>
    intro pre added P _ _ _ _ _
    simp [load_group_aux, mappedGroupGuids]
  | cons v rest ih =>
    intro pre added P hgs hadded hnd hPfr hsurj
    rw [groupGuids_cons] at hnd
    have hndparts : ((∀ x ∈ v.children, ¬x.guid = v.guid) ∧
        v.guid ∉ groupGuids rest) ∧
        (List.map (fun c => c.guid) v.children ++ groupGuids rest).Nodup := by
      simpa using hnd
    have hndc : ∀ x ∈ v.children, ¬x.guid = v.guid := hndparts.1.1
    have hndr : v.guid ∉ groupGuids rest := hndparts.1.2
    have hchnd : (List.map (fun c => c.guid) v.children).Nodup :=
      (List.nodup_append.mp hndparts.2).1
    have hchdisj : ∀ c ∈ v.children, c.guid ∉ groupGuids rest := by
      intro c hc hcr
      exact (List.nodup_append.mp hndparts.2).2.2 (List.mem_map_of_mem _ hc) hcr
    have hvP : v.guid ∉ P := by
      refine hPfr v.guid ?_
      rw [mGG_cons]
      exact List.mem_append_left _ (List.mem_cons_self _ _)
    by_cases hd : (v.type == "disk") = true
    · -- disk member: single canonical top row
      have hsurjv := hsurj (topRowOf (get_disk_name v.path) v) (by
        rw [canonGroupAux, if_pos hd]
        exact List.mem_append_left _ (List.mem_cons_self _ _))
      obtain ⟨rv, hrvR, k, hrveq⟩ := hsurjv
      subst hrveq
      obtain ⟨iv, hget, hfind⟩ := findIdx?_unique_row R hRnd _ v.guid hrvR rfl
      have hfound : get_vdev_row_idx (maskExcept R P) v.guid = some iv := by
        unfold get_vdev_row_idx
        rw [findIdx?_maskExcept, hfind]
      have hadd : add_vdev (maskExcept R P) v.guid v.type v.status v.size false =
          (maskExcept R (P ++ [v.guid]), iv) := by
        unfold add_vdev
        rw [hfound]
        simp only
        rw [mask_update R P v.guid _ _ iv hRnd hget rfl hvP rfl]
      have hcontains_v : ((P ++ [v.guid]).contains v.guid) = true := by
        rw [contains_append]; simp
      have hget_v : (maskExcept R (P ++ [v.guid])).get? iv =
          some { topRowOf (get_disk_name v.path) v with idx := k } := by
        rw [maskExcept_get?, hget]
        simp only [Option.map_some']
        have hproj : ({ topRowOf (get_disk_name v.path) v with idx := k }).guid =
            v.guid := rfl
        rw [hproj, if_pos hcontains_v]
      simp only [load_group_aux, hadd, hd, if_true]
      rw [listModify_id _ _ _ _ hget_v rfl]
      rw [ih (pre ++ [v]) added (P ++ [v.guid])
        (by rw [hgs, List.append_assoc]; rfl) ?hadd2 ?hnd2 ?hfr2 ?hsurj2]
      case hadd2 =>
        intro t ht
        rw [hadded t ht, typeCount_append_single]
        have : (v.type == t) = false := by
          simp only [beq_eq_false_iff_ne, ne_eq]
          intro hc
          exact ht (hc ▸ eq_of_beq hd)
        rw [this]
        simp
      case hnd2 =>
        exact (List.nodup_append.mp hndparts.2).2.1
      case hfr2 =>
        intro x hx hmem
        rcases List.mem_append.mp hmem with h | h
        · refine hPfr x ?_ h
          rw [mGG_cons]
          exact List.mem_append_right _ hx
        · have hxv : x = v.guid := by simpa using h
          exact hndr (hxv ▸ mem_mGG_groupGuids rest x hx)
      case hsurj2 =>
        intro c hc
        refine hsurj c ?_
        rw [canonGroupAux, if_pos hd]
        exact List.mem_append_right _ hc
      rw [mGG_cons, if_pos hd]
      rw [List.append_assoc]
    · -- container member
      have hnotdisk : v.type ≠ "disk" := by
        intro hc
        rw [hc] at hd
        simp at hd
      have hsurjv := hsurj (topRowOf (containerName gs pre v) v) (by
        rw [canonGroupAux, if_neg (by simp [hd])]
        exact List.mem_append_left _ (List.mem_cons_self _ _))
      obtain ⟨rv, hrvR, k, hrveq⟩ := hsurjv
      subst hrveq
      obtain ⟨iv, hget, hfind⟩ := findIdx?_unique_row R hRnd _ v.guid hrvR rfl
      have hfound : get_vdev_row_idx (maskExcept R P) v.guid = some iv := by
        unfold get_vdev_row_idx
        rw [findIdx?_maskExcept, hfind]
      have hadd : add_vdev (maskExcept R P) v.guid v.type v.status v.size false =
          (maskExcept R (P ++ [v.guid]), iv) := by
        unfold add_vdev
        rw [hfound]
        simp only
        rw [mask_update R P v.guid _ _ iv hRnd hget rfl hvP rfl]
      have hcontains_v : ((P ++ [v.guid]).contains v.guid) = true := by
        rw [contains_append]; simp
      have hget_v : (maskExcept R (P ++ [v.guid])).get? iv =
          some { topRowOf (containerName gs pre v) v with idx := k } := by
        rw [maskExcept_get?, hget]
        simp only [Option.map_some']
        have hproj : ({ topRowOf (containerName gs pre v) v with idx := k }).guid =
            v.guid := rfl
        rw [hproj, if_pos hcontains_v]
      have hgetd := addedGet_getD_eq gs pre rest v added hgs hadded hnotdisk
      simp only [load_group_aux, hadd, hd, Bool.false_eq_true, if_false]
      by_cases hlen : (gs.filter (fun w => w.type == v.type)).length > 1
      · have hlen2 : 1 < typeCount gs v.type := hlen
        rw [if_pos hlen]
        have hcn : v.type ++ "-" ++ toString (addedBump added v.type).1 =
            containerName gs pre v := by
          unfold containerName
          rw [if_pos hlen2, addedBump_fst, hgetd]
        rw [hcn]
        rw [listModify_id _ _ _ _ hget_v rfl]
        rw [load_children_pass2 R hRnd iv
            { topRowOf (containerName gs pre v) v with idx := k }
            v.children (P ++ [v.guid]) hget
            (List.mem_append_right _ (List.mem_singleton.mpr rfl))
            hchnd ?hchfr ?hchsurj]
        case hchfr =>
          intro c hc hmem
          rcases List.mem_append.mp hmem with h | h
          · refine hPfr c.guid ?_ h
            rw [mGG_cons, if_neg (by simp [hd])]
            exact List.mem_append_left _
              (List.mem_cons_of_mem _ (List.mem_map_of_mem _ hc))
          · have : c.guid = v.guid := by simpa using h
            exact hndc c hc this
        case hchsurj =>
          intro c hc
          refine hsurj (childRowOf v.type (containerName gs pre v) c) ?_
          rw [canonGroupAux, if_neg (by simp [hd])]
          exact List.mem_append_left _
            (List.mem_cons_of_mem _ (List.mem_map_of_mem _ hc))
        rw [ih (pre ++ [v]) (addedBump added v.type).2
          ((P ++ [v.guid]) ++ v.children.map (fun c => c.guid))
          (by rw [hgs, List.append_assoc]; rfl) ?hadd3 ?hnd3 ?hfr3 ?hsurj3]
        case hadd3 =>
          intro t ht
          by_cases htv : t = v.type
          · subst htv
            rw [addedGet_bump_self, hgetd, typeCount_append_single]
            simp only [beq_self_eq_true, if_true]
            rw [if_pos ⟨hlen2, by omega⟩]
          · rw [addedGet_bump_other added _ _ htv, hadded t ht,
              typeCount_append_single]
            have : (v.type == t) = false := by
              simp only [beq_eq_false_iff_ne, ne_eq]
              exact fun hc => htv hc.symm
            rw [this]
            simp
        case hnd3 =>
          exact (List.nodup_append.mp hndparts.2).2.1
        case hfr3 =>
          intro x hx hmem
          have hxgg : x ∈ groupGuids rest := mem_mGG_groupGuids rest x hx
          rcases List.mem_append.mp hmem with h | h
          · rcases List.mem_append.mp h with h2 | h2
            · refine hPfr x ?_ h2
              rw [mGG_cons]
              exact List.mem_append_right _ hx
            · have hxv : x = v.guid := by simpa using h2
              exact hndr (hxv ▸ hxgg)
          · obtain ⟨c, hc, hceq⟩ := List.mem_map.mp h
            exact hchdisj c hc (hceq ▸ hxgg)
        case hsurj3 =>
          intro c hc
          refine hsurj c ?_
          rw [canonGroupAux, if_neg (by simp [hd])]
          exact List.mem_append_right _ hc
        rw [mGG_cons, if_neg (by simp [hd])]
        rw [List.append_assoc, List.append_assoc]
        rfl
      · have hgl : ¬ 1 < typeCount gs v.type := hlen
        rw [if_neg hlen]
        have hcn : containerName gs pre v = v.type := by
          unfold containerName
          rw [if_neg hgl]
        rw [← hcn]
        rw [listModify_id _ _ _ _ hget_v rfl]
        rw [load_children_pass2 R hRnd iv
            { topRowOf (containerName gs pre v) v with idx := k }
            v.children (P ++ [v.guid]) hget
            (List.mem_append_right _ (List.mem_singleton.mpr rfl))
            hchnd ?hchfrB ?hchsurjB]
        case hchfrB =>
          intro c hc hmem
          rcases List.mem_append.mp hmem with h | h
          · refine hPfr c.guid ?_ h
            rw [mGG_cons, if_neg (by simp [hd])]
            exact List.mem_append_left _
              (List.mem_cons_of_mem _ (List.mem_map_of_mem _ hc))
          · have : c.guid = v.guid := by simpa using h
            exact hndc c hc this
        case hchsurjB =>
          intro c hc
          refine hsurj (childRowOf v.type (containerName gs pre v) c) ?_
          rw [canonGroupAux, if_neg (by simp [hd])]
          exact List.mem_append_left _
            (List.mem_cons_of_mem _ (List.mem_map_of_mem _ hc))
        rw [ih (pre ++ [v]) added
          ((P ++ [v.guid]) ++ v.children.map (fun c => c.guid))
          (by rw [hgs, List.append_assoc]; rfl) ?hadd4 ?hnd4 ?hfr4 ?hsurj4]
        case hadd4 =>
          intro t ht
          rw [hadded t ht, typeCount_append_single]
          by_cases htv : t = v.type
          · subst htv
            rw [if_neg (fun hc => hgl hc.1), if_neg (fun hc => hgl hc.1)]
          · have : (v.type == t) = false := by
              simp only [beq_eq_false_iff_ne, ne_eq]
              exact fun hc => htv hc.symm
            rw [this]
            simp
        case hnd4 =>
          exact (List.nodup_append.mp hndparts.2).2.1
        case hfr4 =>
          intro x hx hmem
          have hxgg : x ∈ groupGuids rest := mem_mGG_groupGuids rest x hx
          rcases List.mem_append.mp hmem with h | h
          · rcases List.mem_append.mp h with h2 | h2
            · refine hPfr x ?_ h2
              rw [mGG_cons]
              exact List.mem_append_right _ hx
            · have hxv : x = v.guid := by simpa using h2
              exact hndr (hxv ▸ hxgg)
          · obtain ⟨c, hc, hceq⟩ := List.mem_map.mp h
            exact hchdisj c hc (hceq ▸ hxgg)
        case hsurj4 =>
          intro c hc
          refine hsurj c ?_
          rw [canonGroupAux, if_neg (by simp [hd])]
          exact List.mem_append_right _ hc
        rw [mGG_cons, if_neg (by simp [hd])]
        rw [List.append_assoc, List.append_assoc]
        rfl

theorem load_vdevs_pass2 (R : List VdevRow) (g : LiveGroups)
    (hRnd : (R.map (fun r => r.guid)).Nodup)
    (hnd : (liveGuids g).Nodup)
    (hsurj : ∀ c ∈ canonLoaded g, ∃ r ∈ R, ∃ k : Nat, r = { c with idx := k })
    (hall : ∀ r ∈ R, r.guid ∈ mappedGuids g) :
    load_vdevs (reset_mapped R) g = R := by
  have hzero : ∀ (gs : List LiveVdev), ∀ t : String, t ≠ "disk" →
      addedGet [] t = if 1 < typeCount gs t ∧ 1 ≤ typeCount [] t then
        some (typeCount [] t + 1) else none := by
    intro gs t _
    have h0 : typeCount [] t = 0 := rfl
    rw [h0]
    simp [addedGet]
  unfold liveGuids at hnd
  have h1 := List.nodup_append.mp hnd
  have h2 := List.nodup_append.mp h1.1
  have h3 := List.nodup_append.mp h2.1
  have hA := h3.1
  have hB := h3.2.1
  have hC := h2.2.1
  have hD := h1.2.1
  have hAB := h3.2.2
  have hABC := h2.2.2
  have hABCD := h1.2.2
  have hsurjA : ∀ c ∈ canonGroup g.data, ∃ r ∈ R, ∃ k : Nat,
      r = { c with idx := k } := by
    intro c hc
    exact hsurj c (List.mem_append_left _ (List.mem_append_left _
      (List.mem_append_left _ hc)))
  have hsurjB : ∀ c ∈ canonGroup g.cache, ∃ r ∈ R, ∃ k : Nat,
      r = { c with idx := k } := by
    intro c hc
    exact hsurj c (List.mem_append_left _ (List.mem_append_left _
      (List.mem_append_right _ hc)))
  have hsurjC : ∀ c ∈ canonGroup g.log, ∃ r ∈ R, ∃ k : Nat,
      r = { c with idx := k } := by
    intro c hc
    exact hsurj c (List.mem_append_left _ (List.mem_append_right _ hc))
  have hsurjD : ∀ c ∈ canonGroup g.spare, ∃ r ∈ R, ∃ k : Nat,
      r = { c with idx := k } := by
    intro c hc
    exact hsurj c (List.mem_append_right _ hc)
  rw [← maskExcept_nil R]
  unfold load_vdevs load_group
  rw [load_group_aux_pass2 R hRnd g.data g.data [] [] [] rfl (hzero g.data) hA
    (fun x _ hc => by cases hc) hsurjA]
  rw [List.nil_append]
  rw [load_group_aux_pass2 R hRnd g.cache g.cache [] []
    (mappedGroupGuids g.data) rfl (hzero g.cache) hB ?frB hsurjB]
  case frB =>
    intro x hx hc
    exact hAB (mem_mGG_groupGuids _ _ hc) (mem_mGG_groupGuids _ _ hx)
  rw [load_group_aux_pass2 R hRnd g.log g.log [] []
    (mappedGroupGuids g.data ++ mappedGroupGuids g.cache) rfl (hzero g.log)
    hC ?frC hsurjC]
  case frC =>
    intro x hx hc
    rcases List.mem_append.mp hc with h | h
    · exact hABC (List.mem_append_left _ (mem_mGG_groupGuids _ _ h))
        (mem_mGG_groupGuids _ _ hx)
    · exact hABC (List.mem_append_right _ (mem_mGG_groupGuids _ _ h))
        (mem_mGG_groupGuids _ _ hx)
  rw [load_group_aux_pass2 R hRnd g.spare g.spare [] []
    ((mappedGroupGuids g.data ++ mappedGroupGuids g.cache) ++
      mappedGroupGuids g.log) rfl (hzero g.spare) hD ?frD hsurjD]
  case frD =>
    intro x hx hc
    rcases List.mem_append.mp hc with h | h
    · rcases List.mem_append.mp h with h2 | h2
      · exact hABCD (List.mem_append_left _ (List.mem_append_left _
          (mem_mGG_groupGuids _ _ h2))) (mem_mGG_groupGuids _ _ hx)
      · exact hABCD (List.mem_append_left _ (List.mem_append_right _
          (mem_mGG_groupGuids _ _ h2))) (mem_mGG_groupGuids _ _ hx)
    · exact hABCD (List.mem_append_right _ (mem_mGG_groupGuids _ _ h))
        (mem_mGG_groupGuids _ _ hx)
  refine maskExcept_all R _ ?_
  intro r hr
  have := hall r hr
  unfold mappedGuids at this
  simp only [List.mem_append] at this ⊢
  tauto

theorem mem_assignIdxFrom (L : List VdevRow) :
    ∀ (n : Nat), ∀ r ∈ assignIdxFrom n L, ∃ z ∈ L, ∃ k : Nat,
      r = { z with idx := k } := by
  induction L with
  | nil => intro n r hr; cases hr
  | cons a rest ih =>
    intro n r hr
    rcases List.mem_cons.mp hr with rfl | hr2
    · exact ⟨a, List.mem_cons_self _ _, n + 1, rfl⟩
    · obtain ⟨z, hz, k, hk⟩ := ih (n + 1) r hr2
      exact ⟨z, List.mem_cons_of_mem _ hz, k, hk⟩

theorem assignIdxFrom_mem (L : List VdevRow) :
    ∀ (n : Nat), ∀ z ∈ L, ∃ r ∈ assignIdxFrom n L, ∃ k : Nat,
      r = { z with idx := k } := by
  induction L with
  | nil => intro n z hz; cases hz
  | cons a rest ih =>
    intro n z hz
    rcases List.mem_cons.mp hz with rfl | hz2
    · exact ⟨{ z with idx := n + 1 }, List.mem_cons_self _ _, n + 1, rfl⟩
    · obtain ⟨r, hr, k, hk⟩ := ih (n + 1) z hz2
      exact ⟨r, List.mem_cons_of_mem _ hr, k, hk⟩

theorem assignIdxFrom_map_guid (L : List VdevRow) :
    ∀ n : Nat, (assignIdxFrom n L).map (fun r => r.guid) =
      L.map (fun r => r.guid) := by
  induction L with
  | nil => intro n; rfl
  | cons a rest ih =>
    intro n
    show a.guid :: (assignIdxFrom (n + 1) rest).map (fun r => r.guid) =
      a.guid :: rest.map (fun r => r.guid)
    rw [ih]

theorem assignIdxFrom_append (a b : List VdevRow) :
    ∀ n : Nat, assignIdxFrom n (a ++ b) =
      assignIdxFrom n a ++ assignIdxFrom (n + a.length) b := by
  induction a with
  | nil => intro n; rfl
  | cons x rest ih =>
    intro n
    show { x with idx := n + 1 } :: assignIdxFrom (n + 1) (rest ++ b) =
      { x with idx := n + 1 } :: (assignIdxFrom (n + 1) rest ++
        assignIdxFrom (n + (rest.length + 1)) b)
    rw [ih (n + 1)]
    have : n + 1 + rest.length = n + (rest.length + 1) := by omega
    rw [this]

theorem assignIdxFrom_idem (L : List VdevRow) :
    ∀ n : Nat, assignIdxFrom n (assignIdxFrom n L) = assignIdxFrom n L := by
  induction L with
  | nil => intro n; rfl
  | cons a rest ih =>
    intro n
    simp only [assignIdxFrom]
    rw [ih (n + 1)]

theorem canonGroupAux_mapped (gs : List LiveVdev) :
    ∀ (vs pre : List LiveVdev), ∀ r ∈ canonGroupAux gs pre vs,
      r.mapped = true := by
  intro vs
  induction vs with
  | nil => intro pre r hr; cases hr
  | cons v rest ih =>
    intro pre r hr
    rw [canonGroupAux] at hr
    rcases List.mem_append.mp hr with h | h
    · by_cases hd : (v.type == "disk") = true
      · rw [if_pos hd] at h
        rw [List.mem_singleton.mp h]
        rfl
      · rw [if_neg hd] at h
        rcases List.mem_cons.mp h with rfl | h2
        · rfl
        · obtain ⟨c, _, rfl⟩ := List.mem_map.mp h2
          rfl
    · exact ih _ r h

theorem canonLoaded_mapped (g : LiveGroups) :
    ∀ r ∈ canonLoaded g, r.mapped = true := by
  intro r hr
  unfold canonLoaded at hr
  rcases List.mem_append.mp hr with h | h4
  · rcases List.mem_append.mp h with h | h3
    · rcases List.mem_append.mp h with h | h2
      · exact canonGroupAux_mapped _ _ _ r h
      · exact canonGroupAux_mapped _ _ _ r h2
    · exact canonGroupAux_mapped _ _ _ r h3
  · exact canonGroupAux_mapped _ _ _ r h4

theorem canonGroupAux_child_parent (gs : List LiveVdev) :
    ∀ (vs pre : List LiveVdev), ∀ r ∈ canonGroupAux gs pre vs,
      r.parent_device_name ≠ "" →
      ∃ t ∈ canonGroupAux gs pre vs, t.parent_device_name = "" ∧
        t.type ≠ "disk" ∧ t.device_name = r.parent_device_name := by
  intro vs
  induction vs with
  | nil => intro pre r hr; cases hr
  | cons v rest ih =>
    intro pre r hr hp
    rw [canonGroupAux] at hr
    rcases List.mem_append.mp hr with h | h
    · by_cases hd : (v.type == "disk") = true
      · rw [if_pos hd] at h
        rw [List.mem_singleton.mp h] at hp
        exact absurd rfl hp
      · rw [if_neg hd] at h
        rcases List.mem_cons.mp h with rfl | h2
        · exact absurd rfl hp
        · obtain ⟨c, _, rfl⟩ := List.mem_map.mp h2
          refine ⟨topRowOf (containerName gs pre v) v, ?_, rfl, ?_, rfl⟩
          · rw [canonGroupAux, if_neg hd]
            exact List.mem_append_left _ (List.mem_cons_self _ _)
          · intro hc
            have hc2 : v.type = "disk" := hc
            rw [hc2] at hd
            simp at hd
    · obtain ⟨t, ht, h1, h2, h3⟩ := ih _ r h hp
      refine ⟨t, ?_, h1, h2, h3⟩
      rw [canonGroupAux]
      exact List.mem_append_right _ ht

theorem canonLoaded_child_parent (g : LiveGroups) :
    ∀ r ∈ canonLoaded g, r.parent_device_name ≠ "" →
      ∃ t ∈ canonLoaded g, t.parent_device_name = "" ∧
        t.type ≠ "disk" ∧ t.device_name = r.parent_device_name := by
  intro r hr hp
  unfold canonLoaded at hr ⊢
  rcases List.mem_append.mp hr with h | h4
  · rcases List.mem_append.mp h with h | h3
    · rcases List.mem_append.mp h with h | h2
      · obtain ⟨t, ht, hrest⟩ := canonGroupAux_child_parent _ _ _ r h hp
        exact ⟨t, List.mem_append_left _ (List.mem_append_left _
          (List.mem_append_left _ ht)), hrest⟩
      · obtain ⟨t, ht, hrest⟩ := canonGroupAux_child_parent _ _ _ r h2 hp
        exact ⟨t, List.mem_append_left _ (List.mem_append_left _
          (List.mem_append_right _ ht)), hrest⟩
    · obtain ⟨t, ht, hrest⟩ := canonGroupAux_child_parent _ _ _ r h3 hp
      exact ⟨t, List.mem_append_left _ (List.mem_append_right _ ht), hrest⟩
  · obtain ⟨t, ht, hrest⟩ := canonGroupAux_child_parent _ _ _ r h4 hp
    exact ⟨t, List.mem_append_right _ ht, hrest⟩

theorem canonGroupAux_guids_eq (gs : List LiveVdev) :
    ∀ (vs pre : List LiveVdev),
      (canonGroupAux gs pre vs).map (fun r => r.guid) = mappedGroupGuids vs := by
  intro vs
  induction vs with
  | nil => intro pre; rfl
  | cons v rest ih =>
    intro pre
    rw [canonGroupAux, mGG_cons, List.map_append, ih]
    congr 1
    by_cases hd : (v.type == "disk") = true
    · rw [if_pos hd, if_pos hd]
      rfl
    · rw [if_neg hd, if_neg hd]
      simp [topRowOf, childRowOf]

theorem canonLoaded_guids (g : LiveGroups) :
    (canonLoaded g).map (fun r => r.guid) = mappedGuids g := by
  unfold canonLoaded mappedGuids canonGroup
  simp only [List.map_append]
  rw [canonGroupAux_guids_eq, canonGroupAux_guids_eq, canonGroupAux_guids_eq,
    canonGroupAux_guids_eq]

theorem expectedOrder_sub (nl : List VdevRow) :
    ∀ r ∈ expectedOrder nl, r ∈ nl := by
  intro r hr
  obtain ⟨t, ht, hrt⟩ := List.mem_flatMap.mp hr
  rcases List.mem_cons.mp hrt with rfl | hrc
  · exact List.mem_of_mem_filter ht
  · exact List.mem_of_mem_filter hrc

theorem expectedOrder_mem (nl : List VdevRow)
    (h3 : ∀ r ∈ nl, r.parent_device_name ≠ "" →
      ∃ t ∈ tops nl, t.device_name = r.parent_device_name) :
    ∀ c ∈ nl, c ∈ expectedOrder nl := by
  intro c hc
  by_cases hp : c.parent_device_name = ""
  · have hct : c ∈ tops nl := List.mem_filter.mpr ⟨hc, by simpa using hp⟩
    exact List.mem_flatMap.mpr ⟨c, hct, List.mem_cons_self _ _⟩
  · obtain ⟨t, ht, htn⟩ := h3 c hc hp
    refine List.mem_flatMap.mpr ⟨t, ht, List.mem_cons_of_mem _ ?_⟩
    exact List.mem_filter.mpr ⟨hc, by simpa using htn.symm⟩

theorem expectedOrder_guid_nodup (nl : List VdevRow)
    (hg : (nl.map (fun r => r.guid)).Nodup)
    (h1 : ∀ t ∈ tops nl, t.device_name ≠ "")
    (h2 : ((tops nl).map (fun t => t.device_name)).Nodup) :
    ((expectedOrder nl).map (fun r => r.guid)).Nodup := by
  have hinj : ∀ x ∈ nl, ∀ y ∈ nl, x.guid = y.guid → x = y :=
    fun x hx y hy h => List.inj_on_of_nodup_map hg hx hy h
  unfold expectedOrder
  rw [List.map_flatMap]
  apply List.nodup_flatMap.mpr
  constructor
  · intro t ht
    rw [List.map_cons]
    refine List.nodup_cons.mpr ⟨?_, ?_⟩
    · intro hmem
      obtain ⟨c, hc, hceq⟩ := List.mem_map.mp hmem
      have hcnl : c ∈ nl := List.mem_of_mem_filter hc
      have htnl : t ∈ nl := List.mem_of_mem_filter ht
      have hpar : c.parent_device_name = t.device_name := by
        simpa using (List.mem_filter.mp hc).2
      have htop : t.parent_device_name = "" := by
        simpa using (List.mem_filter.mp ht).2
      have hct : c = t := hinj c hcnl t htnl hceq
      rw [hct, htop] at hpar
      exact h1 t ht hpar.symm
    · exact hg.sublist (List.Sublist.map _ (List.filter_sublist _))
  · have hp2 : (tops nl).Pairwise
        (fun a b => a.device_name ≠ b.device_name) :=
      List.pairwise_map.mp h2
    refine List.Pairwise.imp ?_ (List.Pairwise.and_mem.mp hp2)
    intro a b hab
    obtain ⟨ha, hb, habne⟩ := hab
    intro x hxa hxb
    obtain ⟨r1, hr1, hr1g⟩ := List.mem_map.mp hxa
    obtain ⟨r2, hr2, hr2g⟩ := List.mem_map.mp hxb
    have hanl : a ∈ nl := List.mem_of_mem_filter ha
    have hbnl : b ∈ nl := List.mem_of_mem_filter hb
    have hatop : a.parent_device_name = "" := by
      simpa using (List.mem_filter.mp ha).2
    have hbtop : b.parent_device_name = "" := by
      simpa using (List.mem_filter.mp hb).2
    have hg12 : r1.guid = r2.guid := by rw [hr1g, hr2g]
    rcases List.mem_cons.mp hr1 with rfl | hr1c <;>
      rcases List.mem_cons.mp hr2 with rfl | hr2c
    · exact habne (by rw [hinj r1 hanl r2 hbnl hg12])
    · have hr2nl : r2 ∈ nl := List.mem_of_mem_filter hr2c
      have : r1 = r2 := hinj r1 hanl r2 hr2nl hg12
      have hpar : r2.parent_device_name = b.device_name := by
        simpa using (List.mem_filter.mp hr2c).2
      rw [← this, hatop] at hpar
      exact h1 b hb hpar.symm
    · have hr1nl : r1 ∈ nl := List.mem_of_mem_filter hr1c
      have : r1 = r2 := hinj r1 hr1nl r2 hbnl hg12
      have hpar : r1.parent_device_name = a.device_name := by
        simpa using (List.mem_filter.mp hr1c).2
      rw [this, hbtop] at hpar
      exact h1 a ha hpar.symm
    · have hr1nl : r1 ∈ nl := List.mem_of_mem_filter hr1c
      have hr2nl : r2 ∈ nl := List.mem_of_mem_filter hr2c
      have : r1 = r2 := hinj r1 hr1nl r2 hr2nl hg12
      have hpa : r1.parent_device_name = a.device_name := by
        simpa using (List.mem_filter.mp hr1c).2
      have hpb : r2.parent_device_name = b.device_name := by
        simpa using (List.mem_filter.mp hr2c).2
      rw [this, hpb] at hpa
      exact habne hpa.symm

theorem mGG_sublist (vs : List LiveVdev) :
    (mappedGroupGuids vs).Sublist (groupGuids vs) := by
  induction vs with
  | nil => exact List.Sublist.refl _
  | cons v rest ih =>
    rw [mGG_cons]
    show List.Sublist (_ ++ _)
      ((v.guid :: v.children.map (fun c => c.guid)) ++ groupGuids rest)
    refine List.Sublist.append ?_ ih
    refine List.Sublist.cons₂ _ ?_
    by_cases hd : (v.type == "disk") = true
    · rw [if_pos hd]; exact List.nil_sublist _
    · rw [if_neg hd]

theorem mappedGuids_sublist (g : LiveGroups) :
    (mappedGuids g).Sublist (liveGuids g) := by
  unfold mappedGuids liveGuids
  exact List.Sublist.append (List.Sublist.append (List.Sublist.append
    (mGG_sublist _) (mGG_sublist _)) (mGG_sublist _)) (mGG_sublist _)

theorem canonLoaded_guid_nodup (g : LiveGroups)
    (hnd : (liveGuids g).Nodup) :
    ((canonLoaded g).map (fun r => r.guid)).Nodup := by
  rw [canonLoaded_guids]
  exact hnd.sublist (mappedGuids_sublist g)

theorem mem_flatten_structure (TS : List (VdevRow × List VdevRow))
    (hB1 : ∀ q ∈ TS, q.1.parent_device_name = "")
    (hB2 : ∀ q ∈ TS, ∀ c ∈ q.2, c.parent_device_name = q.1.device_name) :
    ∀ n : Nat, ∀ r ∈ assignIdxFrom n (TS.flatMap (fun q => q.1 :: q.2)),
      (r.parent_device_name = "" ∧
        ∃ q ∈ TS, r.device_name = q.1.device_name) ∨
      (∃ q ∈ TS, r.parent_device_name = q.1.device_name) := by
  intro n r hr
  obtain ⟨z, hz, k, rfl⟩ := mem_assignIdxFrom _ n r hr
  obtain ⟨q, hq, hzq⟩ := List.mem_flatMap.mp hz
  rcases List.mem_cons.mp hzq with rfl | hzc
  · left
    exact ⟨hB1 q hq, q, hq, rfl⟩
  · right
    exact ⟨q, hq, hB2 q hq z hzc⟩

theorem tops_flatten_cons (b : VdevRow × List VdevRow)
    (TS' : List (VdevRow × List VdevRow)) (n : Nat)
    (hb1 : b.1.parent_device_name = "")
    (hbname : b.1.device_name ≠ "")
    (hb2 : ∀ c ∈ b.2, c.parent_device_name = b.1.device_name) :
    tops (assignIdxFrom n ((b :: TS').flatMap (fun q => q.1 :: q.2))) =
      { b.1 with idx := n + 1 } ::
        tops (assignIdxFrom (n + (b.2.length + 1))
          (TS'.flatMap (fun q => q.1 :: q.2))) := by
  have hD : assignIdxFrom n ((b :: TS').flatMap (fun q => q.1 :: q.2)) =
      ({ b.1 with idx := n + 1 } :: assignIdxFrom (n + 1) b.2) ++
        assignIdxFrom (n + (b.2.length + 1))
          (TS'.flatMap (fun q => q.1 :: q.2)) := by
    rw [List.flatMap_cons, assignIdxFrom_append]
    simp only [assignIdxFrom, List.length_cons]
  rw [hD]
  unfold tops
  rw [List.filter_append, List.filter_cons]
  have hhead : (({ b.1 with idx := n + 1 } :
      VdevRow).parent_device_name == "") = true := by
    show (b.1.parent_device_name == "") = true
    rw [hb1]
    decide
  rw [if_pos hhead]
  have hkids : (assignIdxFrom (n + 1) b.2).filter
      (fun r => r.parent_device_name == "") = [] := by
    rw [List.filter_eq_nil_iff]
    intro r hr hbeq
    obtain ⟨z, hz, k, rfl⟩ := mem_assignIdxFrom _ _ r hr
    have hzp : z.parent_device_name = "" := by simpa using hbeq
    rw [hb2 z hz] at hzp
    exact hbname hzp
  rw [hkids]
  rfl

theorem flatten_fixpoint (TS : List (VdevRow × List VdevRow)) :
    ∀ n : Nat,
    (∀ q ∈ TS, q.1.parent_device_name = "") →
    (∀ q ∈ TS, q.1.device_name ≠ "") →
    (∀ q ∈ TS, ∀ c ∈ q.2, c.parent_device_name = q.1.device_name) →
    TS.Pairwise (fun q1 q2 => q1.1.device_name ≠ q2.1.device_name) →
    expectedOrder (assignIdxFrom n (TS.flatMap (fun q => q.1 :: q.2))) =
      assignIdxFrom n (TS.flatMap (fun q => q.1 :: q.2)) := by
  induction TS with
  | nil => intro n _ _ _ _; rfl
  | cons b TS' ih =>
    intro n hB1 hBn hB2 hB3
    have hb1 : b.1.parent_device_name = "" := hB1 b (List.mem_cons_self _ _)
    have hbname : b.1.device_name ≠ "" := hBn b (List.mem_cons_self _ _)
    have hb2 : ∀ c ∈ b.2, c.parent_device_name = b.1.device_name :=
      hB2 b (List.mem_cons_self _ _)
    have hB1t : ∀ q ∈ TS', q.1.parent_device_name = "" :=
      fun q hq => hB1 q (List.mem_cons_of_mem _ hq)
    have hBnt : ∀ q ∈ TS', q.1.device_name ≠ "" :=
      fun q hq => hBn q (List.mem_cons_of_mem _ hq)
    have hB2t : ∀ q ∈ TS', ∀ c ∈ q.2, c.parent_device_name = q.1.device_name :=
      fun q hq => hB2 q (List.mem_cons_of_mem _ hq)
    have hpair := List.pairwise_cons.mp hB3
    have hhead_ne : ∀ q ∈ TS', b.1.device_name ≠ q.1.device_name := hpair.1
    have hB3t := hpair.2
    have hD : assignIdxFrom n ((b :: TS').flatMap (fun q => q.1 :: q.2)) =
        ({ b.1 with idx := n + 1 } :: assignIdxFrom (n + 1) b.2) ++
          assignIdxFrom (n + (b.2.length + 1))
            (TS'.flatMap (fun q => q.1 :: q.2)) := by
      rw [List.flatMap_cons, assignIdxFrom_append]
      simp only [assignIdxFrom, List.length_cons]
    have hD'struct := mem_flatten_structure TS' hB1t hB2t (n + (b.2.length + 1))
    have htopsD' : ∀ t ∈ tops (assignIdxFrom (n + (b.2.length + 1))
        (TS'.flatMap (fun q => q.1 :: q.2))),
        ∃ q ∈ TS', t.device_name = q.1.device_name := by
      intro t ht
      have htD' := List.mem_of_mem_filter ht
      have htp : t.parent_device_name = "" := by
        simpa using (List.mem_filter.mp ht).2
      rcases hD'struct t htD' with ⟨_, q, hq, hname⟩ | ⟨q, hq, hpq⟩
      · exact ⟨q, hq, hname⟩
      · rw [htp] at hpq
        exact absurd hpq.symm (hBnt q hq)
    have h_tops := tops_flatten_cons b TS' n hb1 hbname hb2
    show expectedOrder _ = _
    unfold expectedOrder
    rw [h_tops, List.flatMap_cons]
    have hproj : ({ b.1 with idx := n + 1 } : VdevRow).device_name =
        b.1.device_name := rfl
    simp only [hproj]
    rw [hD]
    have h_children_head : childrenOf
        (({ b.1 with idx := n + 1 } :: assignIdxFrom (n + 1) b.2) ++
          assignIdxFrom (n + (b.2.length + 1))
            (TS'.flatMap (fun q => q.1 :: q.2))) b.1.device_name =
        assignIdxFrom (n + 1) b.2 := by
      unfold childrenOf
      rw [List.filter_append, List.filter_cons]
      have hcond : ¬ ((({ b.1 with idx := n + 1 } :
          VdevRow).parent_device_name == b.1.device_name) = true) := by
        show ¬ ((b.1.parent_device_name == b.1.device_name) = true)
        rw [hb1]
        simp only [beq_iff_eq]
        exact fun h => hbname h.symm
      rw [if_neg hcond]
      have hself : (assignIdxFrom (n + 1) b.2).filter
          (fun r => r.parent_device_name == b.1.device_name) =
          assignIdxFrom (n + 1) b.2 := by
        refine List.filter_eq_self.mpr ?_
        intro r hr
        obtain ⟨z, hz, k, rfl⟩ := mem_assignIdxFrom _ _ r hr
        show (z.parent_device_name == b.1.device_name) = true
        rw [hb2 z hz]
        exact beq_self_eq_true _
      have hnil : (assignIdxFrom (n + (b.2.length + 1))
          (TS'.flatMap (fun q => q.1 :: q.2))).filter
          (fun r => r.parent_device_name == b.1.device_name) = [] := by
        rw [List.filter_eq_nil_iff]
        intro r hr hbeq
        have hpeq : r.parent_device_name = b.1.device_name := by simpa using hbeq
        rcases hD'struct r hr with ⟨hp0, _⟩ | ⟨q, hq, hpq⟩
        · rw [hp0] at hpeq
          exact hbname hpeq.symm
        · rw [hpq] at hpeq
          exact hhead_ne q hq hpeq.symm
      rw [hself, hnil, List.append_nil]
    rw [h_children_head]
    have h_tail : (tops (assignIdxFrom (n + (b.2.length + 1))
          (TS'.flatMap (fun q => q.1 :: q.2)))).flatMap
        (fun t => t :: childrenOf
          (({ b.1 with idx := n + 1 } :: assignIdxFrom (n + 1) b.2) ++
            assignIdxFrom (n + (b.2.length + 1))
              (TS'.flatMap (fun q => q.1 :: q.2))) t.device_name) =
        (tops (assignIdxFrom (n + (b.2.length + 1))
          (TS'.flatMap (fun q => q.1 :: q.2)))).flatMap
        (fun t => t :: childrenOf
          (assignIdxFrom (n + (b.2.length + 1))
            (TS'.flatMap (fun q => q.1 :: q.2))) t.device_name) := by
      refine flatMap_congr _ _ _ ?_
      intro t ht
      obtain ⟨q, hq, htq⟩ := htopsD' t ht
      have htname : t.device_name ≠ "" := by
        rw [htq]
        exact hBnt q hq
      congr 1
      unfold childrenOf
      rw [List.filter_append, List.filter_cons]
      have hcond : ¬ ((({ b.1 with idx := n + 1 } :
          VdevRow).parent_device_name == t.device_name) = true) := by
        show ¬ ((b.1.parent_device_name == t.device_name) = true)
        rw [hb1]
        simp only [beq_iff_eq]
        exact fun h => htname h.symm
      rw [if_neg hcond]
      have hnil : (assignIdxFrom (n + 1) b.2).filter
          (fun r => r.parent_device_name == t.device_name) = [] := by
        rw [List.filter_eq_nil_iff]
        intro r hr hbeq
        obtain ⟨z, hz, k, rfl⟩ := mem_assignIdxFrom _ _ r hr
        have hpeq : z.parent_device_name = t.device_name := by simpa using hbeq
        rw [hb2 z hz, htq] at hpeq
        exact hhead_ne q hq hpeq
      rw [hnil]
      rfl
    rw [h_tail]
    have hih := ih (n + (b.2.length + 1)) hB1t hBnt hB2t hB3t
    have hih2 : (tops (assignIdxFrom (n + (b.2.length + 1))
          (TS'.flatMap (fun q => q.1 :: q.2)))).flatMap
        (fun t => t :: childrenOf
          (assignIdxFrom (n + (b.2.length + 1))
            (TS'.flatMap (fun q => q.1 :: q.2))) t.device_name) =
        assignIdxFrom (n + (b.2.length + 1))
          (TS'.flatMap (fun q => q.1 :: q.2)) := hih
    rw [hih2]

theorem tops_flatten_names (TS : List (VdevRow × List VdevRow)) :
    ∀ n : Nat,
    (∀ q ∈ TS, q.1.parent_device_name = "") →
    (∀ q ∈ TS, q.1.device_name ≠ "") →
    (∀ q ∈ TS, ∀ c ∈ q.2, c.parent_device_name = q.1.device_name) →
    (tops (assignIdxFrom n (TS.flatMap (fun q => q.1 :: q.2)))).map
        (fun t => t.device_name) = TS.map (fun q => q.1.device_name) := by
  induction TS with
  | nil => intro n _ _ _; rfl
  | cons b TS' ih =>
    intro n hB1 hBn hB2
    rw [tops_flatten_cons b TS' n (hB1 b (List.mem_cons_self _ _))
      (hBn b (List.mem_cons_self _ _)) (hB2 b (List.mem_cons_self _ _))]
    rw [List.map_cons]
    rw [ih (n + (b.2.length + 1))
      (fun q hq => hB1 q (List.mem_cons_of_mem _ hq))
      (fun q hq => hBn q (List.mem_cons_of_mem _ hq))
      (fun q hq => hB2 q (List.mem_cons_of_mem _ hq))]
    rfl

theorem filter_mapped_assignIdxFrom (L : List VdevRow)
    (h : ∀ r ∈ L, r.mapped = true) : ∀ n : Nat,
    (assignIdxFrom n L).filter (fun r => r.mapped) = assignIdxFrom n L := by
  intro n
  refine List.filter_eq_self.mpr ?_
  intro r hr
  obtain ⟨z, hz, k, rfl⟩ := mem_assignIdxFrom _ _ r hr
  show z.mapped = true
  exact h z hz

theorem sync_vdevs_pass1 (g : LiveGroups)
    (hnd : (liveGuids g).Nodup)
    (h1 : ∀ t ∈ tops (canonLoaded g), t.device_name ≠ "")
    (h2 : ((tops (canonLoaded g)).map (fun t => t.device_name)).Nodup) :
    sync_vdevs [] g = assignIdx (expectedOrder (canonLoaded g))
    := by
  unfold sync_vdevs
  have hreset : reset_mapped ([] : List VdevRow) = [] := rfl
  rw [hreset, load_vdevs_canon g hnd]
  have hfilt : (canonLoaded g).filter (fun r => r.mapped) = canonLoaded g :=
    List.filter_eq_self.mpr (fun r hr => by
      show r.mapped = true
      exact canonLoaded_mapped g r hr)
  have h1c : ∀ t ∈ tops ((canonLoaded g).filter (fun r => r.mapped)),
      t.device_name ≠ "" := by
    rw [hfilt]; exact h1
  have h2c : ((tops ((canonLoaded g).filter (fun r => r.mapped))).map
      (fun t => t.device_name)).Nodup := by
    rw [hfilt]; exact h2
  have h3c : ∀ r ∈ (canonLoaded g).filter (fun r => r.mapped),
      r.parent_device_name ≠ "" →
      ∃ t ∈ tops ((canonLoaded g).filter (fun r => r.mapped)),
        t.type ≠ "disk" ∧ t.device_name = r.parent_device_name := by
    rw [hfilt]
    intro r hr hp
    obtain ⟨t, ht, htp, htd, htn⟩ := canonLoaded_child_parent g r hr hp
    exact ⟨t, List.mem_filter.mpr ⟨ht, by simpa using htp⟩, htd, htn⟩
  rw [fix_vdev_ordering_spec (canonLoaded g) h1c h2c h3c, hfilt]

theorem sync_vdevs_idem (g : LiveGroups)
    (hnd : (liveGuids g).Nodup)
    (h1 : ∀ t ∈ tops (canonLoaded g), t.device_name ≠ "")
    (h2 : ((tops (canonLoaded g)).map (fun t => t.device_name)).Nodup) :
    sync_vdevs (sync_vdevs [] g) g = sync_vdevs [] g := by
  have hTS1 : ∀ q ∈ canonTS g, q.1.parent_device_name = "" := by
    intro q hq
    obtain ⟨t, ht, rfl⟩ := List.mem_map.mp hq
    simpa using (List.mem_filter.mp ht).2
  have hTSn : ∀ q ∈ canonTS g, q.1.device_name ≠ "" := by
    intro q hq
    obtain ⟨t, ht, rfl⟩ := List.mem_map.mp hq
    exact h1 t ht
  have hTS2 : ∀ q ∈ canonTS g, ∀ c ∈ q.2,
      c.parent_device_name = q.1.device_name := by
    intro q hq c hc
    obtain ⟨t, ht, rfl⟩ := List.mem_map.mp hq
    simpa using (List.mem_filter.mp hc).2
  have hTS3 : (canonTS g).Pairwise
      (fun q1 q2 => q1.1.device_name ≠ q2.1.device_name) := by
    unfold canonTS
    refine List.pairwise_map.mpr ?_
    exact List.pairwise_map.mp h2
  have hE : expectedOrder (canonLoaded g) =
      (canonTS g).flatMap (fun q => q.1 :: q.2) := by
    unfold canonTS
    rw [List.flatMap_map]
    rfl
  have hR1 : assignIdx (expectedOrder (canonLoaded g)) =
      assignIdxFrom 0 ((canonTS g).flatMap (fun q => q.1 :: q.2)) := by
    unfold assignIdx
    rw [hE]
  have hEmapped : ∀ r ∈ expectedOrder (canonLoaded g), r.mapped = true :=
    fun r hr => canonLoaded_mapped g r (expectedOrder_sub _ r hr)
  have hfiltR1 : (assignIdx (expectedOrder (canonLoaded g))).filter
      (fun r => r.mapped) = assignIdx (expectedOrder (canonLoaded g)) :=
    filter_mapped_assignIdxFrom _ hEmapped 0
  have hstruct := mem_flatten_structure (canonTS g) hTS1 hTS2 0
  have hfix2 : fix_vdev_ordering (assignIdx (expectedOrder (canonLoaded g))) =
      assignIdx (expectedOrder (canonLoaded g)) := by
    have h1R : ∀ t ∈ tops ((assignIdx (expectedOrder (canonLoaded g))).filter
        (fun r => r.mapped)), t.device_name ≠ "" := by
      rw [hfiltR1]
      intro t ht
      have htR1 : t ∈ assignIdx (expectedOrder (canonLoaded g)) :=
        List.mem_of_mem_filter ht
      have htp : t.parent_device_name = "" := by
        simpa using (List.mem_filter.mp ht).2
      rw [hR1] at htR1
      rcases hstruct t htR1 with ⟨_, q, hq, hname⟩ | ⟨q, hq, hpq⟩
      · rw [hname]; exact hTSn q hq
      · rw [htp] at hpq
        exact absurd hpq.symm (hTSn q hq)
    have h2R : ((tops ((assignIdx (expectedOrder (canonLoaded g))).filter
        (fun r => r.mapped))).map (fun t => t.device_name)).Nodup := by
      rw [hfiltR1, hR1]
      rw [tops_flatten_names (canonTS g) 0 hTS1 hTSn hTS2]
      unfold canonTS
      rw [List.map_map]
      exact h2
    have h3R : ∀ r ∈ (assignIdx (expectedOrder (canonLoaded g))).filter
        (fun r => r.mapped), r.parent_device_name ≠ "" →
        ∃ t ∈ tops ((assignIdx (expectedOrder (canonLoaded g))).filter
          (fun r => r.mapped)),
          t.type ≠ "disk" ∧ t.device_name = r.parent_device_name := by
      rw [hfiltR1]
      intro r hr hp
      obtain ⟨z, hz, k, rfl⟩ := mem_assignIdxFrom _ 0 r hr
      have hznl : z ∈ canonLoaded g := expectedOrder_sub _ z hz
      have hzp : z.parent_device_name ≠ "" := hp
      obtain ⟨t0, ht0, ht0p, ht0d, ht0n⟩ :=
        canonLoaded_child_parent g z hznl hzp
      have ht0tops : t0 ∈ tops (canonLoaded g) :=
        List.mem_filter.mpr ⟨ht0, by simpa using ht0p⟩
      have ht0E : t0 ∈ expectedOrder (canonLoaded g) :=
        List.mem_flatMap.mpr ⟨t0, ht0tops, List.mem_cons_self _ _⟩
      obtain ⟨t1, ht1, k2, ht1eq⟩ := assignIdxFrom_mem _ 0 t0 ht0E
      refine ⟨t1, ?_, ?_, ?_⟩
      · refine List.mem_filter.mpr ⟨ht1, ?_⟩
        rw [ht1eq]
        simpa using ht0p
      · rw [ht1eq]
        show t0.type ≠ "disk"
        exact ht0d
      · rw [ht1eq]
        show t0.device_name = _
        exact ht0n
    rw [fix_vdev_ordering_spec _ h1R h2R h3R, hfiltR1, hR1]
    rw [flatten_fixpoint (canonTS g) 0 hTS1 hTSn hTS2 hTS3]
    unfold assignIdx
    rw [assignIdxFrom_idem]
  have hRnd : ((assignIdx (expectedOrder (canonLoaded g))).map
      (fun r => r.guid)).Nodup := by
    unfold assignIdx
    rw [assignIdxFrom_map_guid]
    exact expectedOrder_guid_nodup _ (canonLoaded_guid_nodup g hnd) h1 h2
  have hsurj : ∀ c ∈ canonLoaded g,
      ∃ r ∈ assignIdx (expectedOrder (canonLoaded g)), ∃ k : Nat,
        r = { c with idx := k } := by
    intro c hc
    have h3w : ∀ r ∈ canonLoaded g, r.parent_device_name ≠ "" →
        ∃ t ∈ tops (canonLoaded g),
          t.device_name = r.parent_device_name := by
      intro r hr hp
      obtain ⟨t, ht, htp, _, htn⟩ := canonLoaded_child_parent g r hr hp
      exact ⟨t, List.mem_filter.mpr ⟨ht, by simpa using htp⟩, htn⟩
    have hcE := expectedOrder_mem _ h3w c hc
    exact assignIdxFrom_mem _ 0 c hcE
  have hall : ∀ r ∈ assignIdx (expectedOrder (canonLoaded g)),
      r.guid ∈ mappedGuids g := by
    intro r hr
    obtain ⟨z, hz, k, rfl⟩ := mem_assignIdxFrom _ 0 r hr
    have hznl := expectedOrder_sub _ z hz
    have hmem : z.guid ∈ (canonLoaded g).map (fun r => r.guid) :=
      List.mem_map_of_mem _ hznl
    rw [canonLoaded_guids] at hmem
    exact hmem
  have hpass2 : sync_vdevs (assignIdx (expectedOrder (canonLoaded g))) g =
      assignIdx (expectedOrder (canonLoaded g)) := by
    unfold sync_vdevs
    rw [load_vdevs_pass2 _ g hRnd hnd hsurj hall]
    exact hfix2
  rw [sync_vdevs_pass1 g hnd h1 h2]
  exact hpass2

/-- C2 (amended): starting from an empty vdev table (so, on every state the
sync itself produces), a second full sync run with no live-state change
returns exactly the state of the first run — same rows, device names and
idx values, and the same dataset records — provided the live state is
well formed: distinct guids, nonempty pairwise-distinct top-level device
names, and distinct live dataset names. Starting from an arbitrary stale
vdev table the property fails (`C2_cex`). -/
theorem C2_idempotent (g : LiveGroups) (root : LiveDataset)
    (children snaps : List LiveDataset) (self : String)
    (recs : List DatasetRec)
    (hnd : (liveGuids g).Nodup)
    (h1 : ∀ t ∈ tops (canonLoaded g), t.device_name ≠ "")
    (h2 : ((tops (canonLoaded g)).map (fun t => t.device_name)).Nodup)
    (hds : (root.name :: (children.map (fun d => d.name) ++
      snaps.map (fun d => d.name))).Nodup) :
    full_sync_state g root children snaps self
        (full_sync_state g root children snaps self ([], recs)) =
      full_sync_state g root children snaps self ([], recs) := by
  have hv : sync_vdevs (sync_vdevs [] g) g = sync_vdevs [] g :=
    sync_vdevs_idem g hnd h1 h2
  have hd : sync_datasets (sync_datasets recs self root children snaps)
      self root children snaps = sync_datasets recs self root children snaps :=
    sync_datasets_idem recs self root children snaps hds
  show (sync_vdevs (sync_vdevs [] g) g,
      sync_datasets (sync_datasets recs self root children snaps)
        self root children snaps) =
    (sync_vdevs [] g, sync_datasets recs self root children snaps)
  rw [hv, hd]

theorem C2_idempotent_witness :
    full_sync_state c2Groups c2Root [] [] "tank"
        (full_sync_state c2Groups c2Root [] [] "tank" ([], [])) =
      full_sync_state c2Groups c2Root [] [] "tank" ([], []) := by
  have h := C2_idempotent c2Groups c2Root [] [] "tank" []
    (by decide) (by decide) (by decide) (by decide)
  exact h

/-- C8 counterexample: on a mirror header row with a child disk row
beneath it, the disk-ownership update does not leave the disk untouched —
it writes the pool and the child row's status onto the disk record, so the
claim's "not for child disk rows" fails. -/
theorem C8_cex :
    update_disks "tank" c8Rows c8Disks ≠ .ok c8Disks ∧
    update_disks "tank" c8Rows c8Disks =
      .ok [{ name := "da0", zfs_pool := "tank", health := "ONLINE" }] := by
  have h : update_disks "tank" c8Rows c8Disks =
      .ok [{ name := "da0", zfs_pool := "tank", health := "ONLINE" }] := rfl
  refine ⟨fun hc => ?_, h⟩
  rw [h] at hc
  have h2 : [({ name := "da0", zfs_pool := "tank", health := "ONLINE" } :
      DiskRec)] = c8Disks := by
    injection hc
  exact absurd h2 (by decide)

/-- C8 (amended): the disk-ownership update is exactly the type-`"disk"`
rows — rows of any other type are ignored, every type-`"disk"` row
(top-level or child) targets the disk named by its stripped device name,
writing the pool reference, and disks targeted by no type-`"disk"` row are
untouched. -/
theorem C8_scope :
    (∀ (self : String) (rows : List VdevRow) (disks : List DiskRec),
        update_disks self rows disks =
          update_disks self (rows.filter (fun r => r.type == "disk")) disks)
  ∧ (∀ (self : String) (rows : List VdevRow) (disks ds : List DiskRec),
        update_disks self rows disks = .ok ds →
        ∀ r ∈ rows, r.type = "disk" →
          ∃ dn, strip_partition r.device_name = some dn ∧
            ∃ d ∈ ds, d.name = dn ∧ d.zfs_pool = self)
  ∧ (∀ (self : String) (rows : List VdevRow) (disks ds : List DiskRec),
        update_disks self rows disks = .ok ds →
        ∀ d ∈ disks, (∀ r ∈ rows, r.type = "disk" →
          strip_partition r.device_name ≠ some d.name) → d ∈ ds) :=
  ⟨update_disks_filter_disk,
   fun self rows disks ds h => update_disks_targets self rows disks ds h,
   fun self rows disks ds h => update_disks_untouched self rows disks ds h⟩

theorem C8_scope_witness :
    ∃ dn, strip_partition "ada0" = some dn ∧
      ∃ d ∈ [({ name := "ada0", zfs_pool := "tank", health := "ONLINE" } :
        DiskRec)], d.name = dn ∧ d.zfs_pool = "tank" :=
  C8_scope.2.1 "tank" [{ type := "disk", device_name := "ada0", status := "ONLINE" }]
    [{ name := "ada0", zfs_pool := "", health := "" }]
    [{ name := "ada0", zfs_pool := "tank", health := "ONLINE" }] rfl
    { type := "disk", device_name := "ada0", status := "ONLINE" }
    (List.mem_singleton.mpr rfl) rfl

/-- C6: on `out = "okay"` the pool destroy clears the pool reference from
every owned disk, deletes every owned dataset record and the pool record
itself, and returns `"okay"`; on any other command output the state is
returned unchanged with no return value. -/
theorem C6_destroy :
    ∀ (st : SysState) (self out : String),
      (out = "okay" →
        (∀ d ∈ st.disks, d.zfs_pool = self →
          { d with zfs_pool := "" } ∈ (zpool_destroy st self out).1.disks)
        ∧ (∀ r ∈ (zpool_destroy st self out).1.datasets, r.zfs_pool ≠ self)
        ∧ (∀ q ∈ (zpool_destroy st self out).1.pools, q.1 ≠ self)
        ∧ (zpool_destroy st self out).2 = some "okay")
      ∧ (out ≠ "okay" → zpool_destroy st self out = (st, none)) := by
  intro st self out
  constructor
  · intro hok
    subst hok
    refine ⟨?_, ?_, ?_, rfl⟩
    · intro d hd hpool
      simp only [zpool_destroy, if_pos rfl]
      exact List.mem_map.mpr ⟨d, hd, by simp [hpool]⟩
    · intro r hr
      simp only [zpool_destroy, if_pos rfl] at hr
      have := (List.mem_filter.mp hr).2
      simpa using this
    · intro q hq
      simp only [zpool_destroy, if_pos rfl] at hq
      have := (List.mem_filter.mp hq).2
      simpa using this
  · intro hne
    simp only [zpool_destroy]
    rw [if_neg (by simpa using hne)]

theorem C6_destroy_witness :
    ((zpool_destroy c6State "tank" "okay").2 = some "okay")
    ∧ zpool_destroy c6State "tank" "fail" = (c6State, none) :=
  ⟨((C6_destroy c6State "tank" "okay").1 rfl).2.2.2,
   (C6_destroy c6State "tank" "fail").2 (by decide)⟩

/-- C9: when the zpool command output is anything other than `"okay"`,
`zpool_add`, `zpool_detach` and `zpool_create` fall through: they return
`None` and leave every persisted record unchanged. -/
theorem C9_failure_no_mutation :
    ∀ (st : SysState) (self name out : String) (g : LiveGroups)
      (root : LiveDataset) (children snaps : List LiveDataset),
      out ≠ "okay" →
      zpool_add st self out g root children snaps = .ok (st, none)
      ∧ zpool_detach st self out g root children snaps = .ok (st, none)
      ∧ zpool_create st name out g root children snaps = .ok (st, none) := by
  intro st self name out g root children snaps h
  refine ⟨?_, ?_, ?_⟩ <;>
    simp only [zpool_add, zpool_detach, zpool_create] <;>
    rw [if_neg (by simpa using h)]

theorem C9_failure_no_mutation_witness :
    zpool_add c9State "tank" "error" c9Groups c9Root [] [] =
      .ok (c9State, none) :=
  (C9_failure_no_mutation c9State "tank" "tank" "error" c9Groups c9Root
    [] [] (by decide)).1

end ZfsAdmin
